import Mathlib

/-!
Verification development for the XRPL validator dashboard collector.

The Python sources of the repository are shallowly embedded as Lean
definitions: pure computations become Lean functions, the stateful
handlers become explicit state-passing functions, and the reconciliation
loop becomes a step function over an explicit state type.  Python floats
that only ever hold exactly representable values in the claims at issue
are modelled as rationals; Python ints are modelled as `Int` (or `Nat`
where the source guarantees non-negativity); `time.monotonic()` and
`time.time()` values are passed in as rational parameters.
-/

namespace XrplDash

/-- Truncation toward zero, the behaviour of Python's `int()` applied to a
float: floor for non-negative arguments, ceiling for negative ones. -/
def pyTrunc (q : ℚ) : ℤ :=
  if 0 ≤ q then ⌊q⌋ else ⌈q⌉

/-! ## validations_handler.py : data model -/

/-- Embeds `ValidationRecord` from src/handlers/validations_handler.py:
a single validation event with a wall-clock timestamp. -/
structure ValidationRecord where
  timestamp : ℚ
  ledger_index : ℕ
  agreed : Bool
deriving Repr, DecidableEq

/-- Embeds `PendingLedgerRecord` (dataclass) from validations_handler.py. -/
structure PendingLedgerRecord where
  ledger_index : ℕ
  consensus_hash : Option String := none
  our_hash : Option String := none
  closed_at : Option ℚ := none
  validated_at : Option ℚ := none
  finalized : Bool := false
  finalized_as_missed_at : Option ℚ := none
deriving Repr, DecidableEq

/-- `self._grace_period = 8.0` seconds. -/
def gracePeriod : ℚ := 8

/-- `self._late_repair_window = 300.0` seconds. -/
def lateRepairWindow : ℚ := 300

/-- `self._cleanup_age = 600.0` seconds. -/
def cleanupAge : ℚ := 600

/-- `self._window_1h = 3600` seconds. -/
def window1h : ℚ := 3600

/-- `self._window_24h = 86400` seconds. -/
def window24h : ℚ := 86400

/-- The mutable state shared by the reconciliation cycle apart from the
pending-ledger table itself: the two monotonic counters, the two window
deques (oldest first, as Python `deque` with `append`/`popleft`), and the
`xrpl_validation_event` samples written through the Victoria client,
recorded as (agreed-label, wall-clock timestamp) pairs. -/
structure ReconAcc where
  agreements_total : ℤ
  missed_total : ℤ
  validations_1h : List ValidationRecord
  validations_24h : List ValidationRecord
  events : List (Bool × ℚ)
deriving Repr, DecidableEq

/-- One iteration of the `for ledger_index, record in self._pending_ledgers.items()`
loop body of `_reconcile_cycle` (validations_handler.py lines 1076-1153),
for a single record.  `now` is `time.monotonic()` taken at the top of the
cycle, `wall` is the `time.time()` used for the missed `ValidationRecord`.
Returns `none` in the first component when the record was queued on
`ledgers_to_remove` (it is deleted after the loop). -/
def reconcileOne (now wall : ℚ) (rec : PendingLedgerRecord) (acc : ReconAcc) :
    Option PendingLedgerRecord × ReconAcc :=
  match rec.consensus_hash with
  | none => (some rec, acc)
  | some chash =>
    match rec.closed_at with
    | none => (some rec, acc)
    | some closedAt =>
      let age_since_close := now - closedAt
      -- LATE REPAIR: fix false positives
      let repaired :=
        if rec.finalized then
          match rec.finalized_as_missed_at with
          | some missedAt =>
            match rec.our_hash with
            | some ourHash =>
              if now - missedAt ≤ lateRepairWindow then
                let acc1 : ReconAcc := { acc with missed_total := acc.missed_total - 1 }
                let acc2 : ReconAcc :=
                  if ourHash = chash then
                    { acc1 with agreements_total := acc1.agreements_total + 1 }
                  else
                    { acc1 with missed_total := acc1.missed_total + 1 }
                ({ rec with finalized_as_missed_at := none }, acc2)
              else (rec, acc)
            | none => (rec, acc)
          | none => (rec, acc)
        else (rec, acc)
      let rec1 := repaired.1
      let acc1 := repaired.2
      -- CLEANUP: remove old finalized records
      if rec1.finalized = true ∧ age_since_close > cleanupAge then
        (none, acc1)
      else
        -- FINALIZATION: grace period expired, time to decide
        if rec1.finalized = false ∧ age_since_close > gracePeriod then
          match rec1.our_hash with
          | some ourHash =>
            if ourHash = chash then
              (some { rec1 with finalized := true },
               { acc1 with agreements_total := acc1.agreements_total + 1 })
            else
              (some { rec1 with finalized := true },
               { acc1 with missed_total := acc1.missed_total + 1 })
          | none =>
            let missedRec : ValidationRecord :=
              ⟨wall, rec1.ledger_index, false⟩
            (some { rec1 with finalized := true, finalized_as_missed_at := some now },
             { acc1 with
                 missed_total := acc1.missed_total + 1
                 validations_1h := acc1.validations_1h ++ [missedRec]
                 validations_24h := acc1.validations_24h ++ [missedRec]
                 events := acc1.events ++ [(false, wall)] })
        else
          (some rec1, acc1)

/-- Embeds `on_ledger_closed` restricted to a record that already exists in
the table (the update branch): store the consensus hash and set `closed_at`
only if it is still unset. -/
def applyLedgerClosed (now : ℚ) (chash : String) (rec : PendingLedgerRecord) :
    PendingLedgerRecord :=
  { rec with
      consensus_hash := some chash
      closed_at := if rec.closed_at = none then some now else rec.closed_at }

/-- Embeds `on_our_validation` restricted to a record that already exists in
the table (the update branch): store our hash and set `validated_at` only if
it is still unset. -/
def applyOurValidation (now : ℚ) (ourHash : String) (rec : PendingLedgerRecord) :
    PendingLedgerRecord :=
  { rec with
      our_hash := some ourHash
      validated_at := if rec.validated_at = none then some now else rec.validated_at }

/-- An input touching one fixed pending ledger: the two stream callbacks on
that ledger index, or one reconciliation cycle (the part of the cycle acting
on this record). -/
inductive LedgerEvent where
  | ourValidation (now : ℚ) (hash : String)
  | ledgerClosed (now : ℚ) (hash : String)
  | cycle (now wall : ℚ)
deriving Repr, DecidableEq

/-- Lifetime semantics of a single PendingLedger record: events update the
record while it is in the table; a reconciliation cycle applies
`reconcileOne` to it; once the cleanup rule removed the record its lifetime
is over (a later callback for the same index would create a fresh record,
which starts a new lifetime). -/
def stepRecord (e : LedgerEvent) :
    Option PendingLedgerRecord × ReconAcc → Option PendingLedgerRecord × ReconAcc
  | (none, acc) => (none, acc)
  | (some rec, acc) =>
    match e with
    | .ourValidation now h => (some (applyOurValidation now h rec), acc)
    | .ledgerClosed now h => (some (applyLedgerClosed now h rec), acc)
    | .cycle now wall => reconcileOne now wall rec acc

/-- Runs a trace of events over one record's lifetime. -/
def runTrace (tr : List LedgerEvent) (s : Option PendingLedgerRecord × ReconAcc) :
    Option PendingLedgerRecord × ReconAcc :=
  tr.foldl (fun s e => stepRecord e s) s

/-- The finalization indicator of a lifetime state: a removed record was
necessarily finalized (the cleanup rule requires `finalized`). -/
def finalizedOf : Option PendingLedgerRecord → Bool
  | some rec => rec.finalized
  | none => true

/-! ## validations_handler.py : windowed gauges with decay recovery -/

/-- Embeds `self._recovered_gauges`: the four optional recovered baseline
values (Python ints obtained by `int(float(...))` from the TSDB). -/
structure RecoveredGauges where
  agreements_1h : Option ℤ := none
  missed_1h : Option ℤ := none
  agreements_24h : Option ℤ := none
  missed_24h : Option ℤ := none
deriving Repr, DecidableEq

/-- Embeds `_calculate_window_stats`: `(total, agreed, missed, agreement_pct)`
for one window deque. -/
def calculateWindowStats (dq : List ValidationRecord) : ℕ × ℕ × ℕ × ℚ :=
  if dq = [] then (0, 0, 0, 0)
  else
    let total := dq.length
    let agreed := (dq.filter (fun r => r.agreed)).length
    let missed := total - agreed
    let agreement_pct : ℚ := if total > 0 then (agreed : ℚ) / (total : ℚ) * 100 else 0
    (total, agreed, missed, agreement_pct)

/-- The windowed values computed and emitted by `_write_metrics`
(validations_handler.py lines 820-867) for one window: given the deque
counts, the optional recovered baselines for that window, the recovery time,
the window length in seconds and the current wall-clock time, produce
`(agreed_w, missed_w, total_w, pct_w)`.  The recovered contribution is
`int(recovered * decay_factor)` in the source; Python's `int()` truncates
toward zero, embedded as `pyTrunc`.  The `or 0` applied to the missed
baseline maps both `None` and `0` to `0`, which is `Option.getD 0`. -/
def windowValuesAt (current_time : ℚ) (recovery_time : Option ℚ)
    (baseAgreed baseMissed : Option ℤ) (windowSeconds : ℚ)
    (dq : List ValidationRecord) : ℤ × ℤ × ℤ × ℚ :=
  let stats := calculateWindowStats dq
  let agreed : ℤ := (stats.2.1 : ℤ)
  let missed : ℤ := (stats.2.2.1 : ℤ)
  let total : ℤ := (stats.1 : ℤ)
  let pct : ℚ := stats.2.2.2
  match recovery_time with
  | none => (agreed, missed, total, pct)
  | some rt =>
    let recovery_age := current_time - rt
    if recovery_age < windowSeconds ∧ baseAgreed ≠ none then
      let decay_factor : ℚ := 1 - recovery_age / windowSeconds
      let recovered_agreed := pyTrunc ((baseAgreed.getD 0 : ℚ) * decay_factor)
      let recovered_missed := pyTrunc ((baseMissed.getD 0 : ℚ) * decay_factor)
      let agreed1 := agreed + recovered_agreed
      let missed1 := missed + recovered_missed
      let total1 := agreed1 + missed1
      let pct1 : ℚ := if total1 > 0 then (agreed1 : ℚ) / (total1 : ℚ) * 100 else 0
      (agreed1, missed1, total1, pct1)
    else (agreed, missed, total, pct)

/-! ## validations_handler.py : the validation hot path (`handle`) -/

/-- Shape of a `validationReceived` WebSocket message, with the four fields
`handle` reads.  Absent JSON fields are `none`. -/
structure ValidationMessage where
  validation_public_key : Option String := none
  master_key : Option String := none
  ledger_index : Option ℕ := none
  ledger_hash : Option String := none
deriving Repr, DecidableEq

/-- Python truthiness of an optional string: `None` and `""` are falsy. -/
def pyTruthyStr : Option String → Bool
  | none => false
  | some s => s ≠ ""

/-- Mutable state of `ValidationsHandler` relevant to the validation hot
path.  `seen_ledgers` models the Python set as a duplicate-free list;
`pending_ledgers` models the insertion-ordered dict as a list of records;
`events` are the written `xrpl_validation_event` samples as
(agreed-label, timestamp) pairs; `metrics_writes` counts the
`_write_metrics` batches issued. -/
structure VHState where
  our_validator_key : Option String := none
  validations_checked_total : ℤ := 0
  validations_total : ℤ := 0
  agreements_total : ℤ := 0
  missed_total : ℤ := 0
  seen_ledgers : List ℕ := []
  validations_1h : List ValidationRecord := []
  validations_24h : List ValidationRecord := []
  pending_ledgers : List PendingLedgerRecord := []
  recovered_gauges : RecoveredGauges := {}
  recovery_time : Option ℚ := none
  events : List (Bool × ℚ) := []
  metrics_writes : ℕ := 0
  last_metrics_write : ℚ := 0
deriving Repr, DecidableEq

/-- Embeds `self._seen_ledgers_max_size = 2000`. -/
def seenLedgersMaxSize : ℕ := 2000

/-- Embeds the overflow cleanup of the dedup set: when the set exceeds the
maximum size, the 500 smallest ledger indices are discarded. -/
def evictSeenLedgers (seen : List ℕ) : List ℕ :=
  if seen.length > seenLedgersMaxSize then
    let sorted := seen.mergeSort (fun a b => a ≤ b)
    let oldest := sorted.take 500
    seen.filter (fun x => ¬ x ∈ oldest)
  else seen

/-- Embeds the full `on_ledger_closed` callback on the pending-ledger
table: update the record for `idx` if present, otherwise create it with
`consensus_hash` and `closed_at` set. -/
def onLedgerClosed (now : ℚ) (idx : ℕ) (chash : String)
    (pending : List PendingLedgerRecord) : List PendingLedgerRecord :=
  if pending.any (fun r => r.ledger_index = idx) then
    pending.map (fun r => if r.ledger_index = idx then applyLedgerClosed now chash r else r)
  else
    pending ++ [{ ledger_index := idx, consensus_hash := some chash, closed_at := some now }]

/-- Embeds the full `on_our_validation` callback on the pending-ledger
table: update the record for `idx` if present, otherwise create it with
`our_hash` and `validated_at` set. -/
def onOurValidation (now : ℚ) (idx : ℕ) (ourHash : String)
    (pending : List PendingLedgerRecord) : List PendingLedgerRecord :=
  if pending.any (fun r => r.ledger_index = idx) then
    pending.map (fun r => if r.ledger_index = idx then applyOurValidation now ourHash r else r)
  else
    pending ++ [{ ledger_index := idx, our_hash := some ourHash, validated_at := some now }]

/-- Embeds `_prune_old_records`: drop records from the front of each deque
while they are older than the window. -/
def pruneOldRecords (current_time : ℚ) (st : VHState) : VHState :=
  { st with
      validations_1h :=
        st.validations_1h.dropWhile (fun r => current_time - r.timestamp > window1h)
      validations_24h :=
        st.validations_24h.dropWhile (fun r => current_time - r.timestamp > window24h) }

/-- Embeds `ValidationsHandler.handle` (validations_handler.py lines
650-749).  `lookup` stands for `self.ledger_handler.get_consensus_hash`
(`none` when no ledger handler is wired), `mono` is `time.monotonic()` and
`wall` is `time.time()` during this call.  The trailing `_write_metrics`
call is tracked by bumping `metrics_writes` (its emitted values are
specified separately through `windowValuesAt`). -/
def handleValidation (lookup : Option (ℕ → Option String)) (mono wall : ℚ)
    (msg : ValidationMessage) (st : VHState) : VHState :=
  match msg.ledger_index with
  | none => st
  | some idx =>
    if idx = 0 then st  -- `if not ledger_index:` also fires on a falsy 0
    else
      let st1 : VHState :=
        { st with validations_checked_total := st.validations_checked_total + 1 }
      if pyTruthyStr st1.our_validator_key = false then st1
      else
        let key := st1.our_validator_key.getD ""
        let is_our_validator :=
          (pyTruthyStr msg.validation_public_key ∧ msg.validation_public_key = some key) ∨
          (pyTruthyStr msg.master_key ∧ msg.master_key = some key)
        if ¬ is_our_validator then st1
        else if idx ∈ st1.seen_ledgers then st1
        else
          let st2 : VHState := { st1 with seen_ledgers := st1.seen_ledgers ++ [idx] }
          let st3 : VHState := { st2 with seen_ledgers := evictSeenLedgers st2.seen_ledgers }
          let st4 : VHState :=
            if pyTruthyStr msg.ledger_hash then
              { st3 with
                  pending_ledgers :=
                    onOurValidation mono idx (msg.ledger_hash.getD "") st3.pending_ledgers }
            else st3
          let agreed :=
            if pyTruthyStr msg.ledger_hash ∧ lookup.isSome then
              match (lookup.getD (fun _ => none)) idx with
              | some chash =>
                if chash = "" then true  -- falsy consensus hash keeps the default
                else msg.ledger_hash.getD "" = chash
              | none => true
            else true
          let record : ValidationRecord := ⟨wall, idx, agreed⟩
          let st5 : VHState :=
            { st4 with
                validations_total := st4.validations_total + 1
                validations_1h := st4.validations_1h ++ [record]
                validations_24h := st4.validations_24h ++ [record]
                events := st4.events ++ [(agreed, wall)] }
          let st6 := pruneOldRecords wall st5
          { st6 with
              metrics_writes := st6.metrics_writes + 1
              last_metrics_write := wall }

/-! ## victoria_client.py : exposition format and batch flushing -/

/-- Embeds the `Metric` class of src/clients/victoria_client.py.  The
numeric `value`/`timestamp` are modelled as integers (every claim at issue
concerns the label handling, which is independent of number formatting). -/
structure Metric where
  name : String
  value : ℤ
  labels : List (String × String) := []
  timestamp : ℤ := 0
  metric_type : String := "gauge"
deriving Repr, DecidableEq

/-- Embeds the label block built by `to_prometheus_format`:
`",".join(f'{k}="{v}"' ...)`.  The label value is interpolated verbatim;
no escaping is applied by the source. -/
def labelsStr (labels : List (String × String)) : String :=
  String.intercalate "," (labels.map (fun kv => kv.1 ++ "=\"" ++ kv.2 ++ "\""))

/-- Embeds `Metric.to_prometheus_format` (victoria_client.py lines 52-70). -/
def toPrometheusFormat (m : Metric) : String :=
  if m.labels = [] then
    m.name ++ " " ++ toString m.value ++ " " ++ toString m.timestamp
  else
    m.name ++ "\x7b" ++ labelsStr m.labels ++ "\x7d " ++ toString m.value ++ " "
      ++ toString m.timestamp

/-- The de-facto Prometheus escaping of one character inside a label value:
backslash, double-quote and newline are escaped, all else is verbatim. -/
def promEscapeList : List Char → List Char
  | [] => []
  | c :: cs =>
    (if c = '\\' then ['\\', '\\']
     else if c = '"' then ['\\', '"']
     else if c = '\n' then ['\\', 'n']
     else [c]) ++ promEscapeList cs

/-- The de-facto Prometheus escaping of a label value. -/
def promEscape (s : String) : String :=
  String.mk (promEscapeList s.data)

/-- Refinement reference written from the spec's words ("Label string
escaping follows the de-facto Prometheus rule"): the exposition line with
label values escaped by `promEscape`, to be compared with the code's
`toPrometheusFormat`. -/
def toPrometheusFormatSpecEscaped (m : Metric) : String :=
  if m.labels = [] then
    m.name ++ " " ++ toString m.value ++ " " ++ toString m.timestamp
  else
    m.name ++ "\x7b"
      ++ String.intercalate ","
          (m.labels.map (fun kv => kv.1 ++ "=\"" ++ promEscape kv.2 ++ "\""))
      ++ "\x7d " ++ toString m.value ++ " " ++ toString m.timestamp

/-- A label value is clean when it contains none of the three characters
the Prometheus rule escapes. -/
def cleanLabelValue (s : String) : Prop :=
  ∀ c ∈ s.data, c ≠ '\\' ∧ c ≠ '"' ∧ c ≠ '\n'

instance (s : String) : Decidable (cleanLabelValue s) := by
  unfold cleanLabelValue; infer_instance

/-- Outcome of one POST attempt inside `_flush_batch`: an HTTP response
with a status code, an `httpx.TimeoutException`, or another exception. -/
inductive FlushOutcome where
  | response (status : ℕ)
  | timeout
  | connError
deriving Repr, DecidableEq

/-- A response counts as success exactly when its status is 200 or 204. -/
def isFlushSuccess : FlushOutcome → Bool
  | .response s => decide (s = 200 ∨ s = 204)
  | .timeout => false
  | .connError => false

/-- Result of `_flush_batch`: the batch list afterwards, the backoff sleeps
performed (in order, in seconds), whether a send succeeded, and whether the
batch was discarded after retry exhaustion.  The function is total: the
source catches every exception, so nothing propagates to the caller. -/
structure FlushResult where
  batch : List Metric
  sleeps : List ℕ
  succeeded : Bool
  discarded : Bool
deriving Repr, DecidableEq

/-- The retry loop `for attempt in range(1, self.max_retries + 1)` of
`_flush_batch` (victoria_client.py lines 228-265): `remaining` counts the
attempts still to be made, `attempt` is the current attempt number, and
`sleeps` lists the backoff sleeps performed so far.  On a 200/204 response
the batch is cleared and the loop returns; otherwise, when more attempts
remain, the loop sleeps `2 ** attempt` seconds and retries; after the last
attempt the batch is discarded with an error log. -/
def flushLoop (outcomes : ℕ → FlushOutcome) (maxRetries : ℕ) :
    ℕ → ℕ → List ℕ → FlushResult
  | 0, _, sleeps =>
    { batch := [], sleeps := sleeps, succeeded := false, discarded := true }
  | remaining + 1, attempt, sleeps =>
    if isFlushSuccess (outcomes attempt) then
      { batch := [], sleeps := sleeps, succeeded := true, discarded := false }
    else
      let sleeps1 := if attempt < maxRetries then sleeps ++ [2 ^ attempt] else sleeps
      flushLoop outcomes maxRetries remaining (attempt + 1) sleeps1

/-- Embeds `_flush_batch` (victoria_client.py lines 211-265): an empty
batch returns immediately; otherwise the retry loop runs from attempt 1,
with `maxRetries` attempts remaining. -/
def flushBatch (batch : List Metric) (outcomes : ℕ → FlushOutcome)
    (maxRetries : ℕ) : FlushResult :=
  if batch = [] then
    { batch := batch, sleeps := [], succeeded := false, discarded := false }
  else
    flushLoop outcomes maxRetries maxRetries 1 []

/-! ## xrpl_client.py : connection state machine -/

/-- The connection-tracking fields of `XRPLWebSocketClient`.
`heartbeat_task_running` models whether `_heartbeat_task` is a live task. -/
structure XrplClientState where
  is_connected : Bool := false
  connection_healthy : Bool := true
  reconnect_attempts : ℕ := 0
  heartbeat_failures : ℕ := 0
  heartbeat_task_running : Bool := false
  last_heartbeat_time : Option ℚ := none
  subscribed_streams : List String := []
deriving Repr, DecidableEq

/-- Embeds the success path of `connect()` (xrpl_client.py lines 105-117):
sets `_is_connected`, `_connection_healthy`, resets `_reconnect_attempts`
to 0, and starts the heartbeat task when none is running (so afterwards one
is running either way).  Note the source does not touch
`_heartbeat_failures` here. -/
def connectSuccess (st : XrplClientState) : XrplClientState :=
  { st with
      is_connected := true
      connection_healthy := true
      reconnect_attempts := 0
      heartbeat_task_running := true }

/-- Embeds the success branch of one heartbeat probe (xrpl_client.py lines
168-173): record the heartbeat time, reset the failure count, mark
healthy. -/
def heartbeatSuccess (now : ℚ) (st : XrplClientState) : XrplClientState :=
  { st with
      last_heartbeat_time := some now
      heartbeat_failures := 0
      connection_healthy := true }

/-- Embeds `self._reconnect_backoff = [1, 2, 5, 10, 30]`. -/
def reconnectBackoff : List ℕ := [1, 2, 5, 10, 30]

/-- Embeds `self._max_reconnect_attempts = 10`. -/
def maxReconnectAttempts : ℕ := 10

/-- The reconnect delay computed in `listen` (xrpl_client.py lines 412-413
and the analogous branches): after `_reconnect_attempts` has been
incremented to `attempts`, the sleep is
`_reconnect_backoff[min(attempts - 1, len(_reconnect_backoff) - 1)]`. -/
def reconnectDelay (attempts : ℕ) : ℕ :=
  reconnectBackoff.getD (min (attempts - 1) (reconnectBackoff.length - 1)) 0

/-- Embeds the bookkeeping done when the listen loop enters a reconnect
branch: the attempt counter is incremented and the backoff delay for this
attempt is chosen. -/
def reconnectStep (st : XrplClientState) : XrplClientState × ℕ :=
  let st1 := { st with reconnect_attempts := st.reconnect_attempts + 1 }
  (st1, reconnectDelay st1.reconnect_attempts)

/-! ## state_exporter.py : the /api/v1/query endpoint -/

/-- Keys of the `STATE_VALUES` dict of state_exporter.py, in order. -/
def stateValueNames : List String :=
  ["down", "disconnected", "connected", "syncing", "tracking", "full",
   "validating", "proposing"]

/-- Modes iterated by the `xrpl_node_mode_realtime` branches. -/
def nodeModeNames : List String := ["validator", "stock_node", "unknown"]

/-- The snapshot of the `current_metrics` dict read by `serve_query`. -/
structure ExporterMetrics where
  state_value : ℤ := 0
  state_name : String := "down"
  timestamp : ℚ := 0
  build_version : String := ""
  pubkey_validator : String := ""
  node_mode : String := "unknown"
  ledger_sequence : ℤ := 0
  ledger_age : ℚ := 0
  base_fee_xrp : ℚ := 0
  reserve_base_xrp : ℚ := 0
  reserve_inc_xrp : ℚ := 0
  load_factor : ℚ := 0
  validation_quorum : ℚ := 0
  unl_expiry_days : ℤ := 0
  amendment_blocked : ℤ := 0
  proposers : ℤ := 0
  peer_count : ℤ := 0
  peers_inbound : ℤ := 0
  peers_outbound : ℤ := 0
  peers_insane : ℤ := 0
  peer_latency_p90 : ℚ := 0
  peers_timestamp : ℚ := 0
  crawl_peer_count : ℤ := 0
  peers_higher_version : ℤ := 0
  peers_higher_version_pct : ℚ := 0
  upgrade_recommended : ℤ := 0

/-- One entry of the `result` array of the query response: the metric
label set (name, instance, plus an optional extra label) and the
`[timestamp, value]` pair.  The source wraps the value through `str(...)`;
the model keeps the underlying number. -/
structure VectorSample where
  metric_name : String
  extra_label : Option (String × String) := none
  ts : ℚ
  value : ℚ
deriving Repr, DecidableEq

/-- The JSON body `serve_query` always produces:
`{"status": "success", "data": {"resultType": "vector", "result": ...}}`. -/
structure QueryBody where
  status : String
  resultType : String
  result : List VectorSample
deriving Repr, DecidableEq

/-- Python's `in` on strings: `pat` occurs as a contiguous substring. -/
def containsSub (q pat : String) : Bool :=
  decide (pat.data <:+: q.data)

/-- Every metric-name substring tested by the `if/elif` chain of
`serve_query` (state_exporter.py lines 357-600), in source order. -/
def knownQuerySubstrings : List String :=
  ["xrpl_state_realtime_value", "xrpl_state_realtime",
   "xrpl_peer_count_realtime", "xrpl_peers_inbound_realtime",
   "xrpl_peers_outbound_realtime", "xrpl_peers_insane_realtime",
   "xrpl_peer_latency_p90_realtime", "xrpl_build_version_realtime",
   "xrpl_pubkey_realtime", "xrpl_node_mode_realtime",
   "xrpl_ledger_sequence_realtime", "xrpl_ledger_age_realtime",
   "xrpl_base_fee_xrp_realtime", "xrpl_reserve_base_xrp_realtime",
   "xrpl_reserve_inc_xrp_realtime", "xrpl_load_factor_realtime",
   "xrpl_validation_quorum_realtime", "xrpl_proposers_realtime",
   "xrpl_unl_expiry_days_realtime", "xrpl_amendment_blocked_realtime",
   "xrpl_crawl_peer_count_realtime", "xrpl_peers_higher_version_realtime",
   "xrpl_peers_higher_version_pct_realtime",
   "xrpl_upgrade_recommended_realtime", "xrpl_upgrade_status_realtime"]

/-- A single-sample result vector. -/
def oneSample (nm : String) (ts v : ℚ) : List VectorSample :=
  [{ metric_name := nm, ts := ts, value := v }]

/-- Embeds `MetricsHandler.serve_query` (state_exporter.py lines 320-618).
The query string is dispatched by substring matching in source order; every
branch answers HTTP 200 with the success envelope.  `stateFilter` and
`modeFilter` stand for the optional label value the source extracts with
`re.search` from the query (they are only consulted in the two branches the
source consults them in). -/
def serveQuery (q : String) (stateFilter modeFilter : Option String)
    (m : ExporterMetrics) : ℕ × QueryBody :=
  let result : List VectorSample :=
    if containsSub q "xrpl_state_realtime_value" then
      oneSample "xrpl_state_realtime_value" m.timestamp (m.state_value : ℚ)
    else if containsSub q "xrpl_state_realtime" then
      (stateValueNames.filter (fun nm =>
          if pyTruthyStr stateFilter then stateFilter = some nm else true)).map
        (fun nm =>
          { metric_name := "xrpl_state_realtime"
            extra_label := some ("state", nm)
            ts := m.timestamp
            value := if nm = m.state_name then 1 else 0 })
    else if containsSub q "xrpl_peer_count_realtime" then
      oneSample "xrpl_peer_count_realtime" m.peers_timestamp (m.peer_count : ℚ)
    else if containsSub q "xrpl_peers_inbound_realtime" then
      oneSample "xrpl_peers_inbound_realtime" m.peers_timestamp (m.peers_inbound : ℚ)
    else if containsSub q "xrpl_peers_outbound_realtime" then
      oneSample "xrpl_peers_outbound_realtime" m.peers_timestamp (m.peers_outbound : ℚ)
    else if containsSub q "xrpl_peers_insane_realtime" then
      oneSample "xrpl_peers_insane_realtime" m.peers_timestamp (m.peers_insane : ℚ)
    else if containsSub q "xrpl_peer_latency_p90_realtime" then
      oneSample "xrpl_peer_latency_p90_realtime" m.peers_timestamp m.peer_latency_p90
    else if containsSub q "xrpl_build_version_realtime" then
      if m.build_version ≠ "" then
        [{ metric_name := "xrpl_build_version_realtime"
           extra_label := some ("version", m.build_version)
           ts := m.timestamp, value := 1 }]
      else []
    else if containsSub q "xrpl_pubkey_realtime" then
      if m.pubkey_validator ≠ "" then
        [{ metric_name := "xrpl_pubkey_realtime"
           extra_label := some ("pubkey", m.pubkey_validator)
           ts := m.timestamp, value := 1 }]
      else []
    else if containsSub q "xrpl_node_mode_realtime" then
      (nodeModeNames.filter (fun md =>
          if pyTruthyStr modeFilter then modeFilter = some md else true)).map
        (fun md =>
          { metric_name := "xrpl_node_mode_realtime"
            extra_label := some ("mode", md)
            ts := m.timestamp
            value := if md = m.node_mode then 1 else 0 })
    else if containsSub q "xrpl_ledger_sequence_realtime" then
      oneSample "xrpl_ledger_sequence_realtime" m.timestamp (m.ledger_sequence : ℚ)
    else if containsSub q "xrpl_ledger_age_realtime" then
      oneSample "xrpl_ledger_age_realtime" m.timestamp m.ledger_age
    else if containsSub q "xrpl_base_fee_xrp_realtime" then
      oneSample "xrpl_base_fee_xrp_realtime" m.timestamp m.base_fee_xrp
    else if containsSub q "xrpl_reserve_base_xrp_realtime" then
      oneSample "xrpl_reserve_base_xrp_realtime" m.timestamp m.reserve_base_xrp
    else if containsSub q "xrpl_reserve_inc_xrp_realtime" then
      oneSample "xrpl_reserve_inc_xrp_realtime" m.timestamp m.reserve_inc_xrp
    else if containsSub q "xrpl_load_factor_realtime" then
      oneSample "xrpl_load_factor_realtime" m.timestamp m.load_factor
    else if containsSub q "xrpl_validation_quorum_realtime" then
      oneSample "xrpl_validation_quorum_realtime" m.timestamp m.validation_quorum
    else if containsSub q "xrpl_proposers_realtime" then
      oneSample "xrpl_proposers_realtime" m.timestamp (m.proposers : ℚ)
    else if containsSub q "xrpl_unl_expiry_days_realtime" then
      oneSample "xrpl_unl_expiry_days_realtime" m.timestamp (m.unl_expiry_days : ℚ)
    else if containsSub q "xrpl_amendment_blocked_realtime" then
      oneSample "xrpl_amendment_blocked_realtime" m.timestamp (m.amendment_blocked : ℚ)
    else if containsSub q "xrpl_crawl_peer_count_realtime" then
      oneSample "xrpl_crawl_peer_count_realtime" m.timestamp (m.crawl_peer_count : ℚ)
    else if containsSub q "xrpl_peers_higher_version_realtime" then
      oneSample "xrpl_peers_higher_version_realtime" m.timestamp (m.peers_higher_version : ℚ)
    else if containsSub q "xrpl_peers_higher_version_pct_realtime" then
      oneSample "xrpl_peers_higher_version_pct_realtime" m.timestamp m.peers_higher_version_pct
    else if containsSub q "xrpl_upgrade_recommended_realtime" then
      oneSample "xrpl_upgrade_recommended_realtime" m.timestamp (m.upgrade_recommended : ℚ)
    else if containsSub q "xrpl_upgrade_status_realtime" then
      oneSample "xrpl_upgrade_status_realtime" m.timestamp
        ((m.upgrade_recommended + m.amendment_blocked * 2 : ℤ) : ℚ)
    else []
  (200, { status := "success", resultType := "vector", result := result })

/-! ## ledger_handler.py : consensus-hash buffer -/

/-- Embeds `LEDGER_HASH_BUFFER_SIZE = 1000`. -/
def ledgerHashBufferSize : ℕ := 1000

/-- Embeds `RIPPLE_EPOCH_OFFSET = 946684800`. -/
def rippleEpochOffset : ℚ := 946684800

/-- Embeds `DROPS_PER_XRP = 1_000_000`. -/
def dropsPerXrp : ℚ := 1000000

/-- Shape of a `ledgerClosed` message, with the fields `handle` reads. -/
structure LedgerMessage where
  ledger_index : Option ℕ := none
  ledger_hash : Option String := none
  ledger_time : Option ℕ := none
  fee_base : Option ℤ := none
  reserve_base : Option ℤ := none
  reserve_inc : Option ℤ := none
  txn_count : Option ℤ := none
deriving Repr, DecidableEq

/-- Mutable state of `LedgerHandler`.  The ring buffer `ledger_hashes`
(Python `deque(maxlen=1000)`) is kept newest-first in this model, with its
length cached in `hash_count` (mirroring the deque's O(1) `len`); the
insertion-ordered dict `_ledger_hash_lookup` is an association list;
`pending` is the reconciliation table reached through the
`on_ledger_closed` callback; `metrics_out` collects the written samples
newest-first. -/
structure LHState where
  ledger_count : ℕ := 0
  ledgers_closed_total : ℤ := 0
  ledger_hashes : List (ℕ × String) := []
  hash_count : ℕ := 0
  ledger_hash_lookup : List (ℕ × String) := []
  pending : List PendingLedgerRecord := []
  last_ledger_time : Option ℚ := none
  last_ledger_index : Option ℕ := none
  metrics_out : List (String × ℚ) := []
deriving Repr, DecidableEq

/-- Insertion-ordered dict assignment `d[k] = v`: replace the value when
the key exists, append the pair otherwise. -/
def dictInsert (k : ℕ) (v : String) (d : List (ℕ × String)) : List (ℕ × String) :=
  if d.any (fun p => p.1 = k) then
    d.map (fun p => if p.1 = k then (k, v) else p)
  else d ++ [(k, v)]

/-- Embeds `get_consensus_hash` (ledger_handler.py lines 226-236). -/
def getConsensusHash (st : LHState) (idx : ℕ) : Option String :=
  (st.ledger_hash_lookup.find? (fun p => p.1 = idx)).map (fun p => p.2)

/-- Embeds `LedgerHandler.handle` (ledger_handler.py lines 78-209).
`wall` is `time.time()`, `mono` is the `time.monotonic()` the wired
validation handler's `on_ledger_closed` callback reads, and `hasValidationHandler`
tells whether `self.validation_handler` is set. -/
def ledgerHandle (hasValidationHandler : Bool) (wall mono : ℚ)
    (msg : LedgerMessage) (st : LHState) : LHState :=
  let st0 : LHState := { st with ledger_count := st.ledger_count + 1 }
  match msg.ledger_index, msg.ledger_time with
  | some idx, some lt =>
    if idx = 0 ∨ lt = 0 then st0  -- `if not ledger_index or not ledger_time_ripple:`
    else
      let st1 : LHState :=
        { st0 with ledgers_closed_total := st0.ledgers_closed_total + 1 }
      let st2 : LHState :=
        if pyTruthyStr msg.ledger_hash then
          let h := msg.ledger_hash.getD ""
          let buf0 := (idx, h) :: st1.ledger_hashes
          let buf :=
            if st1.hash_count = ledgerHashBufferSize then buf0.dropLast else buf0
          let cnt := min (st1.hash_count + 1) ledgerHashBufferSize
          let lkp0 := dictInsert idx h st1.ledger_hash_lookup
          let lkp :=
            if lkp0.length > ledgerHashBufferSize then
              lkp0.filter (fun p => buf.any (fun q => q.1 = p.1))
            else lkp0
          let pend :=
            if hasValidationHandler then onLedgerClosed mono idx h st1.pending
            else st1.pending
          { st1 with
              ledger_hashes := buf
              hash_count := cnt
              ledger_hash_lookup := lkp
              pending := pend }
        else st1
      let ledger_time_unix : ℚ := (lt : ℚ) + rippleEpochOffset
      let ledger_age : ℚ := max 0 (wall - ledger_time_unix)
      let transaction_rate : ℚ :=
        match st2.last_ledger_time, st2.last_ledger_index with
        | some t, some li =>
          if t = 0 ∨ li = 0 then 0  -- Python truthiness on both trackers
          else
            let time_diff := ledger_time_unix - t
            if time_diff > 0 then ((msg.txn_count.getD 0 : ℚ)) / time_diff else 0
        | _, _ => 0
      let st3 : LHState :=
        { st2 with
            last_ledger_time := some ledger_time_unix
            last_ledger_index := some idx }
      { st3 with
          metrics_out :=
            ("xrpl_transaction_rate", transaction_rate) ::
            ("xrpl_reserve_inc_xrp", (msg.reserve_inc.getD 2000000 : ℚ) / dropsPerXrp) ::
            ("xrpl_reserve_base_xrp", (msg.reserve_base.getD 10000000 : ℚ) / dropsPerXrp) ::
            ("xrpl_base_fee_xrp", (msg.fee_base.getD 10 : ℚ) / dropsPerXrp) ::
            ("xrpl_ledger_age_seconds", ledger_age) ::
            ("xrpl_ledger_sequence", (idx : ℚ)) ::
            ("xrpl_ledgers_closed_total", (st3.ledgers_closed_total : ℚ)) ::
            st3.metrics_out }
  | _, _ => st0

/-- Folds `ledgerHandle` over a list of messages from a given state. -/
def runLedgerHandle (hasVH : Bool) (wall mono : ℚ) (msgs : List LedgerMessage)
    (st : LHState) : LHState :=
  msgs.foldl (fun s msg => ledgerHandle hasVH wall mono msg s) st

/-! ## Helper notions used by the statements -/

/-- Count of agreed records in a window deque (`deque_agreed_count`). -/
def dequeAgreedCount (dq : List ValidationRecord) : ℕ :=
  (dq.filter (fun r => r.agreed)).length

/-- Count of not-agreed records in a window deque. -/
def dequeMissedCount (dq : List ValidationRecord) : ℕ :=
  (dq.filter (fun r => ¬ r.agreed = true)).length

/-- A trace consisting only of reconciliation cycles at the given
(monotonic, wall) time pairs. -/
def cyclesOnly (ps : List (ℚ × ℚ)) : List LedgerEvent :=
  ps.map (fun p => LedgerEvent.cycle p.1 p.2)

/-- The keys of the consensus-hash lookup dict. -/
def lookupKeys (st : LHState) : List ℕ :=
  st.ledger_hash_lookup.map Prod.fst

/-- The ledger indices present in the ring buffer. -/
def bufferIndices (st : LHState) : List ℕ :=
  st.ledger_hashes.map Prod.fst

/-- The ledger indices carried by a list of `ledgerClosed` messages. -/
def msgLedgerIndices (msgs : List LedgerMessage) : List ℕ :=
  msgs.filterMap (fun m => m.ledger_index)

/-- Structural invariant of the ledger handler state: the cached count
matches the buffer, the buffer is bounded, the dict has duplicate-free
keys, and the dict is bounded. -/
def LHInv (st : LHState) : Prop :=
  st.hash_count = st.ledger_hashes.length ∧
  st.ledger_hashes.length ≤ ledgerHashBufferSize ∧
  (lookupKeys st).Nodup ∧
  st.ledger_hash_lookup.length ≤ ledgerHashBufferSize

/-- Synchronisation between dict and ring buffer, which holds along traces
with pairwise-distinct ledger indices: the dict keys and the buffer indices
have the same members, and the buffer indices are duplicate-free. -/
def LHSync (st : LHState) : Prop :=
  (∀ k, k ∈ lookupKeys st ↔ k ∈ bufferIndices st) ∧ (bufferIndices st).Nodup

/-- A well-formed `ledgerClosed` message with index `i` and hash `h`
(ledger_time 1, all drop fields defaulted). -/
def mkLedgerMsg (i : ℕ) (h : String) : LedgerMessage :=
  { ledger_index := some i, ledger_hash := some h, ledger_time := some 1 }

/-- A delivery sequence that makes a dict key outlive its ring-buffer
entry: index 1 once, index 2 repeated 999 times (filling the 1000-slot
buffer), then index 3 (which evicts the only copy of index 1 while the
dict still holds only 3 keys). -/
def cexLedgerTrace : List LedgerMessage :=
  mkLedgerMsg 1 "A" :: (List.replicate 999 (mkLedgerMsg 2 "B") ++ [mkLedgerMsg 3 "C"])

/-- The ledger-handler state after handling `cexLedgerTrace` from the
initial state. -/
def cexLedgerFinal : LHState :=
  runLedgerHandle false 0 0 cexLedgerTrace {}

/-- A window deque holding five agreed records. -/
def fiveAgreedDeque : List ValidationRecord :=
  List.replicate 5 ⟨0, 1, true⟩

/-! ## Helper lemmas -/

theorem promEscapeList_eq_self (l : List Char)
    (h : ∀ c ∈ l, c ≠ '\\' ∧ c ≠ '"' ∧ c ≠ '\n') : promEscapeList l = l := by
  induction l with
  | nil => rfl
  | cons c cs ih =>
    have hc := h c (List.mem_cons_self c cs)
    simp only [promEscapeList, if_neg hc.1, if_neg hc.2.1, if_neg hc.2.2]
    simp only [List.cons_append, List.nil_append, List.cons.injEq, true_and]
    exact ih fun x hx => h x (List.mem_cons_of_mem c hx)

theorem promEscape_eq_self (s : String) (h : cleanLabelValue s) : promEscape s = s := by
  unfold promEscape
  rw [promEscapeList_eq_self s.data h]

theorem flushLoop_allFail (outcomes : ℕ → FlushOutcome) (maxRetries : ℕ) :
    ∀ remaining attempt sleeps, attempt + remaining = maxRetries + 1 →
      (∀ i, attempt ≤ i → i ≤ maxRetries → isFlushSuccess (outcomes i) = false) →
      flushLoop outcomes maxRetries remaining attempt sleeps =
        { batch := [], sleeps := sleeps ++ (List.range' attempt (maxRetries - attempt)).map (2 ^ ·),
          succeeded := false, discarded := true } := by
  intro remaining
  induction remaining with
  | zero =>
    intro attempt sleeps hsum _
    have : maxRetries - attempt = 0 := by omega
    simp [flushLoop, this]
  | succ rem ih =>
    intro attempt sleeps hsum hfail
    have hle : attempt ≤ maxRetries := by omega
    rw [flushLoop, hfail attempt le_rfl hle]
    simp only [Bool.false_eq_true, if_false]
    by_cases hlt : attempt < maxRetries
    · rw [if_pos hlt, ih (attempt + 1) _ (by omega)
        (fun i h1 h2 => hfail i (by omega) h2)]
      have hr : maxRetries - attempt = (maxRetries - (attempt + 1)) + 1 := by omega
      rw [hr, List.range'_succ, List.map_cons, List.append_assoc]
      rfl
    · have ha : attempt = maxRetries := by omega
      rw [if_neg hlt, ih (attempt + 1) _ (by omega)
        (fun i h1 h2 => hfail i (by omega) h2)]
      have h0 : maxRetries - (attempt + 1) = 0 := by omega
      have h1 : maxRetries - attempt = 0 := by omega
      simp [h0, h1]

theorem flushLoop_firstSuccess (outcomes : ℕ → FlushOutcome) (maxRetries : ℕ) :
    ∀ remaining attempt sleeps, attempt + remaining = maxRetries + 1 →
      ∀ k, attempt ≤ k → k ≤ maxRetries → isFlushSuccess (outcomes k) = true →
      (∀ i, attempt ≤ i → i < k → isFlushSuccess (outcomes i) = false) →
      flushLoop outcomes maxRetries remaining attempt sleeps =
        { batch := [], sleeps := sleeps ++ (List.range' attempt (k - attempt)).map (2 ^ ·),
          succeeded := true, discarded := false } := by
  intro remaining
  induction remaining with
  | zero =>
    intro attempt sleeps hsum k hk1 hk2 _ _
    omega
  | succ rem ih =>
    intro attempt sleeps hsum k hk1 hk2 hk hfail
    by_cases heq : attempt = k
    · subst heq
      rw [flushLoop, hk]
      simp
    · have hlt : attempt < k := by omega
      rw [flushLoop, hfail attempt le_rfl hlt]
      simp only [Bool.false_eq_true, if_false]
      rw [if_pos (by omega), ih (attempt + 1) _ (by omega) k (by omega) hk2 hk
        (fun i h1 h2 => hfail i (by omega) h2)]
      have hr : k - attempt = (k - (attempt + 1)) + 1 := by omega
      rw [hr, List.range'_succ, List.map_cons, List.append_assoc]
      rfl

/-! ## Claim C5 -/

/-- C5 counterexample: `to_prometheus_format` applies no escaping, so a
label value containing double quotes produces the same exposition line as
a different, clean label set — the line of the quoted sample differs from
its Prometheus-escaped line, and no parser can recover both originals from
the shared line, refuting the serialize-then-parse round trip. -/
theorem prometheus_escaping_cex :
    toPrometheusFormat
        { name := "m", value := 1, labels := [("k", "a\",b=\"c")], timestamp := 0 } =
      toPrometheusFormat
        { name := "m", value := 1, labels := [("k", "a"), ("b", "c")], timestamp := 0 } ∧
    ([("k", "a\",b=\"c")] : List (String × String)) ≠ [("k", "a"), ("b", "c")] ∧
    toPrometheusFormat
        { name := "m", value := 1, labels := [("k", "a\"b")], timestamp := 0 } ≠
      toPrometheusFormatSpecEscaped
        { name := "m", value := 1, labels := [("k", "a\"b")], timestamp := 0 } := by
  refine ⟨by decide, by decide, by decide⟩

/-- C5 amended: the exposition line embeds label values verbatim with no
escaping; it coincides with the Prometheus-escaped line exactly for samples
whose label values contain no backslash, double quote, or newline (for
which the escaping rule is the identity), so only those samples survive a
compliant round trip. -/
theorem prometheus_escaping_clean (m : Metric)
    (h : ∀ kv ∈ m.labels, cleanLabelValue kv.2) :
    toPrometheusFormat m = toPrometheusFormatSpecEscaped m := by
  unfold toPrometheusFormat toPrometheusFormatSpecEscaped labelsStr
  by_cases hl : m.labels = []
  · simp [hl]
  · rw [if_neg hl, if_neg hl]
    have : m.labels.map (fun kv => kv.1 ++ "=\"" ++ kv.2 ++ "\"")
        = m.labels.map (fun kv => kv.1 ++ "=\"" ++ promEscape kv.2 ++ "\"") := by
      apply List.map_congr_left
      intro kv hkv
      rw [promEscape_eq_self kv.2 (h kv hkv)]
    rw [this]

/-- C5 witness: a sample with clean label values, at which the amended
theorem applies. -/
theorem prometheus_escaping_clean_witness :
    toPrometheusFormat
        { name := "xrpl_validation_event", value := 1,
          labels := [("agreed", "true")], timestamp := 1699564823000 } =
      toPrometheusFormatSpecEscaped
        { name := "xrpl_validation_event", value := 1,
          labels := [("agreed", "true")], timestamp := 1699564823000 } :=
  prometheus_escaping_clean _ (by decide)

/-! ## Claim C6 -/

/-- C6: for a non-empty batch, a flush whose attempts all fail (timeout or
non-2xx) performs `maxRetries` attempts, sleeping `2 ^ attempt` seconds
between consecutive attempts (attempts 1 .. maxRetries-1), then discards
the whole batch without raising; a 200 or 204 response at attempt `k`
stops there with the batch cleared and sleeps `2^1 .. 2^(k-1)`. -/
theorem flush_retry_contract (batch : List Metric) (outcomes : ℕ → FlushOutcome)
    (maxRetries : ℕ) (hb : batch ≠ []) :
    ((∀ i, 1 ≤ i → i ≤ maxRetries → isFlushSuccess (outcomes i) = false) →
      flushBatch batch outcomes maxRetries =
        { batch := [], sleeps := (List.range' 1 (maxRetries - 1)).map (2 ^ ·),
          succeeded := false, discarded := true }) ∧
    (∀ k, 1 ≤ k → k ≤ maxRetries → isFlushSuccess (outcomes k) = true →
      (∀ i, 1 ≤ i → i < k → isFlushSuccess (outcomes i) = false) →
      flushBatch batch outcomes maxRetries =
        { batch := [], sleeps := (List.range' 1 (k - 1)).map (2 ^ ·),
          succeeded := true, discarded := false }) := by
  constructor
  · intro hfail
    rw [flushBatch, if_neg hb,
      flushLoop_allFail outcomes maxRetries maxRetries 1 [] (by omega)
        (fun i h1 h2 => hfail i h1 h2)]
    rfl
  · intro k hk1 hk2 hk hfail
    rw [flushBatch, if_neg hb,
      flushLoop_firstSuccess outcomes maxRetries maxRetries 1 [] (by omega) k hk1 hk2 hk
        (fun i h1 h2 => hfail i h1 h2)]
    rfl

/-- C6 witness: with `max_retries = 3`, all attempts timing out yields
sleeps of 2 and 4 seconds and a discarded empty batch; a 204 at attempt 2
stops after one sleep with the batch cleared. -/
theorem flush_retry_contract_witness :
    flushBatch [{ name := "m", value := 1 }] (fun _ => FlushOutcome.timeout) 3 =
      { batch := [], sleeps := (List.range' 1 2).map (2 ^ ·),
        succeeded := false, discarded := true } ∧
    flushBatch [{ name := "m", value := 1 }]
        (fun i => if i = 2 then FlushOutcome.response 204 else FlushOutcome.timeout) 3 =
      { batch := [], sleeps := (List.range' 1 1).map (2 ^ ·),
        succeeded := true, discarded := false } :=
  ⟨(flush_retry_contract _ _ 3 (by decide)).1 (fun i _ _ => rfl),
   (flush_retry_contract _ _ 3 (by decide)).2 2 (by decide) (by decide) (by decide)
     (fun i h1 h2 => by
       have hi : i = 1 := by omega
       subst hi
       rfl)⟩

/-! ## Claim C7 -/

/-- C7 counterexample: a successful `connect()` does not reset
`_heartbeat_failures` — from a state with 2 accumulated failures, the
count is still 2 (not 0) after connecting. -/
theorem connect_reset_cex :
    (connectSuccess
        { is_connected := false, connection_healthy := false,
          reconnect_attempts := 4, heartbeat_failures := 2,
          heartbeat_task_running := false, last_heartbeat_time := none,
          subscribed_streams := [] }).heartbeat_failures = 2 ∧ (2 : ℕ) ≠ 0 := by
  exact ⟨rfl, by decide⟩

/-- C7 amended: every successful `connect()` resets `reconnect_attempts`
to 0, marks the client connected and healthy, and leaves a heartbeat task
running, while `heartbeat_failures` is carried over unchanged (it is reset
only by a successful heartbeat probe); the delay before reconnect attempt
`n` is `[1,2,5,10,30][min(n-1, 4)]`, so 1,2,5,10 for the first four
attempts and 30 from the fifth attempt on. -/
theorem connect_reset_amended (st : XrplClientState) (a : ℕ) (now : ℚ) :
    (connectSuccess st).reconnect_attempts = 0 ∧
    (connectSuccess st).is_connected = true ∧
    (connectSuccess st).connection_healthy = true ∧
    (connectSuccess st).heartbeat_task_running = true ∧
    (connectSuccess st).heartbeat_failures = st.heartbeat_failures ∧
    (heartbeatSuccess now st).heartbeat_failures = 0 ∧
    reconnectDelay (a + 1) = reconnectBackoff.getD (min a 4) 0 ∧
    reconnectDelay 1 = 1 ∧ reconnectDelay 2 = 2 ∧ reconnectDelay 3 = 5 ∧
    reconnectDelay 4 = 10 ∧ reconnectDelay (a + 5) = 30 := by
  refine ⟨rfl, rfl, rfl, rfl, rfl, rfl, ?_, rfl, rfl, rfl, rfl, ?_⟩
  · simp [reconnectDelay, reconnectBackoff]
  · have h4 : min (a + 5 - 1) (reconnectBackoff.length - 1) = 4 := by
      simp only [reconnectBackoff, List.length_cons, List.length_nil]
      omega
    rw [reconnectDelay, h4]
    rfl

/-! ## Claim C8 -/

/-- C8: a query string containing no known metric name as a substring gets
HTTP 200 with exactly the empty success vector
`(status "success", resultType "vector", result [])`, and every query —
known or not — is answered with HTTP 200 by `serve_query`. -/
theorem serve_query_unknown (q : String) (stateFilter modeFilter : Option String)
    (m : ExporterMetrics)
    (h : ∀ pat ∈ knownQuerySubstrings, containsSub q pat = false) :
    serveQuery q stateFilter modeFilter m =
      (200, { status := "success", resultType := "vector", result := [] }) ∧
    (∀ q2 sf2 mf2 m2, (serveQuery q2 sf2 mf2 m2).1 = 200) := by
  constructor
  · unfold serveQuery
    rw [h "xrpl_state_realtime_value" (by decide),
      h "xrpl_state_realtime" (by decide),
      h "xrpl_peer_count_realtime" (by decide),
      h "xrpl_peers_inbound_realtime" (by decide),
      h "xrpl_peers_outbound_realtime" (by decide),
      h "xrpl_peers_insane_realtime" (by decide),
      h "xrpl_peer_latency_p90_realtime" (by decide),
      h "xrpl_build_version_realtime" (by decide),
      h "xrpl_pubkey_realtime" (by decide),
      h "xrpl_node_mode_realtime" (by decide),
      h "xrpl_ledger_sequence_realtime" (by decide),
      h "xrpl_ledger_age_realtime" (by decide),
      h "xrpl_base_fee_xrp_realtime" (by decide),
      h "xrpl_reserve_base_xrp_realtime" (by decide),
      h "xrpl_reserve_inc_xrp_realtime" (by decide),
      h "xrpl_load_factor_realtime" (by decide),
      h "xrpl_validation_quorum_realtime" (by decide),
      h "xrpl_proposers_realtime" (by decide),
      h "xrpl_unl_expiry_days_realtime" (by decide),
      h "xrpl_amendment_blocked_realtime" (by decide),
      h "xrpl_crawl_peer_count_realtime" (by decide),
      h "xrpl_peers_higher_version_realtime" (by decide),
      h "xrpl_peers_higher_version_pct_realtime" (by decide),
      h "xrpl_upgrade_recommended_realtime" (by decide),
      h "xrpl_upgrade_status_realtime" (by decide)]
    rfl
  · intro q2 sf2 mf2 m2
    rfl

/-- C8 witness: the PromQL query `up` contains no known metric name, and
receives the empty success vector with HTTP 200. -/
theorem serve_query_unknown_witness :
    serveQuery "up" none none {} =
      (200, { status := "success", resultType := "vector", result := [] }) ∧
    (serveQuery "rate(xrpl_validations_checked_total[5m])" none none {}).1 = 200 :=
  ⟨(serve_query_unknown "up" none none {} (by decide)).1,
   (serve_query_unknown "up" none none {} (by decide)).2
     "rate(xrpl_validations_checked_total[5m])" none none {}⟩

/-! ## Claim C2 -/

/-- C2: at the finalization step (record not finalized, consensus hash and
close time known, age past the 8-second grace period), the verdict is: a
matching `our_hash` adds 1 to `agreements_total`; a differing `our_hash`
adds 1 to `missed_total`; an absent `our_hash` adds 1 to `missed_total`,
stamps `finalized_as_missed_at` with the current monotonic time, appends an
`agreed=false` ValidationRecord to both window deques and writes an
`agreed=false` validation_event sample — and in all three cases the record
becomes finalized. -/
theorem finalization_verdict (now wall : ℚ) (rec : PendingLedgerRecord) (acc : ReconAcc)
    (chash : String) (t0 : ℚ)
    (hfin : rec.finalized = false) (hc : rec.consensus_hash = some chash)
    (hcl : rec.closed_at = some t0) (hage : now - t0 > gracePeriod) :
    (rec.our_hash = some chash →
      reconcileOne now wall rec acc =
        (some { rec with finalized := true },
         { acc with agreements_total := acc.agreements_total + 1 })) ∧
    (∀ h, rec.our_hash = some h → h ≠ chash →
      reconcileOne now wall rec acc =
        (some { rec with finalized := true },
         { acc with missed_total := acc.missed_total + 1 })) ∧
    (rec.our_hash = none →
      reconcileOne now wall rec acc =
        (some { rec with finalized := true, finalized_as_missed_at := some now },
         { acc with
             missed_total := acc.missed_total + 1
             validations_1h := acc.validations_1h ++ [⟨wall, rec.ledger_index, false⟩]
             validations_24h := acc.validations_24h ++ [⟨wall, rec.ledger_index, false⟩]
             events := acc.events ++ [(false, wall)] })) := by
  refine ⟨?_, ?_, ?_⟩
  · intro hoh
    simp only [reconcileOne, hc, hcl, hfin, hoh, Bool.false_eq_true, if_false, false_and,
      if_true, and_true, and_false]
    simp [hage]
  · intro h hoh hne
    simp only [reconcileOne, hc, hcl, hfin, hoh, Bool.false_eq_true, if_false, false_and,
      if_true, and_true, and_false]
    simp [hage, hne]
  · intro hoh
    simp only [reconcileOne, hc, hcl, hfin, hoh, Bool.false_eq_true, if_false, false_and,
      if_true, and_true, and_false]
    simp [hage]

/-- C2 witness: the three verdicts at concrete records nine seconds after
close — agreement on hash "A", disagreement "C" vs "B", and a miss with no
validation. -/
theorem finalization_verdict_witness :
    reconcileOne 9 50 ⟨100, some "A", some "A", some 0, some 1, false, none⟩
        ⟨0, 0, [], [], []⟩ =
      (some ⟨100, some "A", some "A", some 0, some 1, true, none⟩, ⟨1, 0, [], [], []⟩) ∧
    reconcileOne 9 50 ⟨101, some "B", some "C", some 0, some 2, false, none⟩
        ⟨0, 0, [], [], []⟩ =
      (some ⟨101, some "B", some "C", some 0, some 2, true, none⟩, ⟨0, 1, [], [], []⟩) ∧
    reconcileOne 9 50 ⟨102, some "D", none, some 0, none, false, none⟩
        ⟨0, 0, [], [], []⟩ =
      (some ⟨102, some "D", none, some 0, none, true, some 9⟩,
       ⟨0, 1, [⟨50, 102, false⟩], [⟨50, 102, false⟩], [(false, 50)]⟩) :=
  ⟨(finalization_verdict 9 50 _ _ "A" 0 rfl rfl rfl (by norm_num [gracePeriod])).1 rfl,
   (finalization_verdict 9 50 _ _ "B" 0 rfl rfl rfl (by norm_num [gracePeriod])).2.1
     "C" rfl (by decide),
   (finalization_verdict 9 50 _ _ "D" 0 rfl rfl rfl (by norm_num [gracePeriod])).2.2 rfl⟩

/-! ## Claim C3 -/

theorem reconcileOne_frozen (now wall : ℚ) (rec : PendingLedgerRecord) (acc : ReconAcc)
    (tm : ℚ) (hfin : rec.finalized = true) (hm : rec.finalized_as_missed_at = some tm)
    (hlate : ¬ now - tm ≤ lateRepairWindow) :
    reconcileOne now wall rec acc = (some rec, acc) ∨
    reconcileOne now wall rec acc = (none, acc) := by
  rcases hc : rec.consensus_hash with _ | chash
  · left; simp [reconcileOne, hc]
  rcases hcl : rec.closed_at with _ | t0
  · left; simp [reconcileOne, hc, hcl]
  rcases hoh : rec.our_hash with _ | ourHash
  · simp only [reconcileOne, hc, hcl, hfin, hm, hoh, if_true, true_and]
    by_cases hcln : now - t0 > cleanupAge
    · right; simp [hcln, hfin]
    · left; simp [hcln, hfin]
  · simp only [reconcileOne, hc, hcl, hfin, hm, hoh, if_true, true_and]
    rw [if_neg hlate]
    by_cases hcln : now - t0 > cleanupAge
    · right; simp [hcln, hfin]
    · left; simp [hcln, hfin]

theorem runCycles_frozen (rec : PendingLedgerRecord) (acc : ReconAcc) (tm : ℚ)
    (hfin : rec.finalized = true) (hm : rec.finalized_as_missed_at = some tm) :
    ∀ ps : List (ℚ × ℚ), (∀ p ∈ ps, p.1 - tm > lateRepairWindow) →
      ∀ s, s = ((some rec : Option PendingLedgerRecord), acc) ∨ s = (none, acc) →
      runTrace (cyclesOnly ps) s = (some rec, acc) ∨ runTrace (cyclesOnly ps) s = (none, acc) := by
  intro ps
  induction ps with
  | nil =>
    intro _ s hs
    simpa [runTrace, cyclesOnly] using hs
  | cons p ps ih =>
    intro hlate s hs
    have hstep : stepRecord (LedgerEvent.cycle p.1 p.2) s = (some rec, acc) ∨
        stepRecord (LedgerEvent.cycle p.1 p.2) s = (none, acc) := by
      rcases hs with hs | hs <;> subst hs
      · exact reconcileOne_frozen p.1 p.2 rec acc tm hfin hm
          (not_le.mpr (hlate p (List.mem_cons_self p ps)))
      · right; rfl
    have hrun : runTrace (cyclesOnly (p :: ps)) s
        = runTrace (cyclesOnly ps) (stepRecord (LedgerEvent.cycle p.1 p.2) s) := by
      simp [runTrace, cyclesOnly]
    rw [hrun]
    exact ih (fun q hq => hlate q (List.mem_cons_of_mem p hq)) _ hstep

/-- C3: for a record finalized as missed (marker set at monotonic time
`tm`) whose validation has arrived: a cycle running at most 300 seconds
after `tm` removes the missed verdict (missed −1), credits an agreement
when `our_hash` matches the consensus hash and otherwise re-adds a miss,
and clears the marker; if instead every cycle runs more than 300 seconds
after `tm`, the counters never change again — the miss stands and no
agreement is ever credited. -/
theorem late_repair_contract (wall : ℚ) (rec : PendingLedgerRecord) (acc : ReconAcc)
    (chash ourHash : String) (tm t0 : ℚ)
    (hfin : rec.finalized = true)
    (hm : rec.finalized_as_missed_at = some tm)
    (hoh : rec.our_hash = some ourHash)
    (hc : rec.consensus_hash = some chash)
    (hcl : rec.closed_at = some t0) :
    (∀ now, now - tm ≤ lateRepairWindow →
      (reconcileOne now wall rec acc).2.agreements_total
          = acc.agreements_total + (if ourHash = chash then 1 else 0) ∧
      (reconcileOne now wall rec acc).2.missed_total
          = acc.missed_total - 1 + (if ourHash = chash then 0 else 1) ∧
      (∀ rec2, (reconcileOne now wall rec acc).1 = some rec2 →
          rec2.finalized_as_missed_at = none)) ∧
    (∀ ps : List (ℚ × ℚ), (∀ p ∈ ps, p.1 - tm > lateRepairWindow) →
      (runTrace (cyclesOnly ps) (some rec, acc)).2 = acc) := by
  constructor
  · intro now hwin
    simp only [reconcileOne, hc, hcl, hfin, hm, hoh, if_true, true_and]
    rw [if_pos hwin]
    by_cases hmatch : ourHash = chash
    · by_cases hcln : now - t0 > cleanupAge
      · simp [hmatch, hcln, hfin]
      · simp [hmatch, hcln, hfin]
    · by_cases hcln : now - t0 > cleanupAge
      · simp [hmatch, hcln, hfin]
      · simp [hmatch, hcln, hfin]
  · intro ps hps
    rcases runCycles_frozen rec acc tm hfin hm ps hps (some rec, acc) (Or.inl rfl)
      with hr | hr <;> rw [hr]

/-- C3 witness: ledger 102 marked missed at monotonic time 9; the
validation has arrived with the consensus hash, and the cycle at time 61
(52 s elapsed) repairs it; with cycles only at times 400 and 500 (elapsed
391 and 491, past the 300 s window) the counters stay untouched. -/
theorem late_repair_contract_witness :
    (reconcileOne 61 100 ⟨102, some "D", some "D", some 0, some 60, true, some 9⟩
        ⟨0, 1, [], [], []⟩).2.agreements_total = 0 + (if "D" = "D" then 1 else 0) ∧
    (runTrace (cyclesOnly [(400, 400), (500, 500)])
        (some ⟨102, some "D", some "D", some 0, some 60, true, some 9⟩,
         ⟨0, 1, [], [], []⟩)).2 = ⟨0, 1, [], [], []⟩ :=
  ⟨((late_repair_contract 100 _ _ "D" "D" 9 0 rfl rfl rfl rfl rfl).1 61
      (by norm_num [lateRepairWindow])).1,
   (late_repair_contract 100 _ _ "D" "D" 9 0 rfl rfl rfl rfl rfl).2
     [(400, 400), (500, 500)] (by with_unfolding_all decide)⟩

/-! ## Claim C4 -/

theorem length_sub_agreed (dq : List ValidationRecord) :
    dq.length - dequeAgreedCount dq = dequeMissedCount dq := by
  unfold dequeAgreedCount dequeMissedCount
  have h := @List.length_eq_length_filter_add _ dq (fun r => r.agreed)
  have h2 : dq.filter (fun r => !(fun r : ValidationRecord => r.agreed) r)
      = dq.filter (fun r => ¬ r.agreed = true) := by
    apply List.filter_congr
    intro r _
    simp
  rw [h2] at h
  omega

/-- C4 counterexample: at a gauge emission 2700 s after recovery of a 1h
baseline of 999 agreements, with five agreed records in the deque, the
code emits `5 + int(999 * 0.25) = 254`, while the claimed
round-to-nearest formula gives `5 + round(249.75) = 255`. -/
theorem decay_rounding_cex :
    (windowValuesAt 2700 (some 0) (some 999) (some 10) window1h fiveAgreedDeque).1 = 254 ∧
    (254 : ℤ) ≠ (dequeAgreedCount fiveAgreedDeque : ℤ)
      + round ((999 : ℚ) * (1 - 2700 / window1h)) := by
  constructor
  · with_unfolding_all decide
  · with_unfolding_all decide

/-- C4 amended: while a recovery baseline is loaded and the recovery age
is below the window length, the emitted windowed value is the deque count
plus the baseline contribution truncated toward zero —
`int(baseline * (1 - age/window))`, i.e. the floor for the non-negative
baselines — not rounded to nearest; the agreement percentage is
`100 * agreed / (agreed + missed)` when the total is positive and 0
otherwise. -/
theorem decay_truncation (current rt : ℚ) (ba : ℤ) (obm : Option ℤ) (w : ℚ)
    (dq : List ValidationRecord)
    (hw : 0 < w) (hage : current - rt < w) (hba : 0 ≤ ba) (hbm : 0 ≤ obm.getD 0) :
    windowValuesAt current (some rt) (some ba) obm w dq =
      ((dequeAgreedCount dq : ℤ) + ⌊(ba : ℚ) * (1 - (current - rt) / w)⌋,
       (dequeMissedCount dq : ℤ) + ⌊(obm.getD 0 : ℚ) * (1 - (current - rt) / w)⌋,
       ((dequeAgreedCount dq : ℤ) + ⌊(ba : ℚ) * (1 - (current - rt) / w)⌋)
         + ((dequeMissedCount dq : ℤ) + ⌊(obm.getD 0 : ℚ) * (1 - (current - rt) / w)⌋),
       if 0 < ((dequeAgreedCount dq : ℤ) + ⌊(ba : ℚ) * (1 - (current - rt) / w)⌋)
           + ((dequeMissedCount dq : ℤ) + ⌊(obm.getD 0 : ℚ) * (1 - (current - rt) / w)⌋) then
         ((((dequeAgreedCount dq : ℤ) + ⌊(ba : ℚ) * (1 - (current - rt) / w)⌋) : ℤ) : ℚ)
           / (((((dequeAgreedCount dq : ℤ) + ⌊(ba : ℚ) * (1 - (current - rt) / w)⌋)
             + ((dequeMissedCount dq : ℤ) + ⌊(obm.getD 0 : ℚ) * (1 - (current - rt) / w)⌋)) : ℤ) : ℚ)
           * 100
       else 0) := by
  have hdec : (0 : ℚ) ≤ 1 - (current - rt) / w := by
    rw [sub_nonneg, div_le_one hw]
    exact le_of_lt hage
  have hta : pyTrunc ((ba : ℚ) * (1 - (current - rt) / w))
      = ⌊(ba : ℚ) * (1 - (current - rt) / w)⌋ := by
    rw [pyTrunc, if_pos (mul_nonneg (by exact_mod_cast hba) hdec)]
  have htm : pyTrunc ((obm.getD 0 : ℚ) * (1 - (current - rt) / w))
      = ⌊(obm.getD 0 : ℚ) * (1 - (current - rt) / w)⌋ := by
    rw [pyTrunc, if_pos (mul_nonneg (by exact_mod_cast hbm) hdec)]
  have hstats : (calculateWindowStats dq).2.1 = dequeAgreedCount dq ∧
      (calculateWindowStats dq).2.2.1 = dequeMissedCount dq := by
    by_cases hdq : dq = []
    · subst hdq
      exact ⟨rfl, rfl⟩
    · constructor
      · simp [calculateWindowStats, hdq, dequeAgreedCount]
      · simp only [calculateWindowStats, hdq, if_neg hdq]
        exact length_sub_agreed dq
  simp only [windowValuesAt, if_pos (And.intro hage (by simp : (some ba : Option ℤ) ≠ none)),
    Option.getD_some, hta, htm, hstats.1, hstats.2, gt_iff_lt]

/-- C4 witness: the scenario of the spec — baseline 1000 agreements and 10
misses recovered at time 0, emission at 1800 s with five agreed deque
records — where the truncated and rounded contributions agree (500). -/
theorem decay_truncation_witness :
    (0 : ℚ) < 3600 ∧ (1800 : ℚ) - 0 < 3600 ∧ (0 : ℤ) ≤ 1000 ∧
    (windowValuesAt 1800 (some 0) (some 1000) (some 10) 3600 fiveAgreedDeque).1
      = (dequeAgreedCount fiveAgreedDeque : ℤ)
        + ⌊((1000 : ℤ) : ℚ) * (1 - ((1800 : ℚ) - 0) / 3600)⌋ :=
  ⟨by norm_num, by norm_num, by norm_num,
   by
    rw [decay_truncation 1800 0 1000 (some 10) 3600 fiveAgreedDeque (by norm_num)
      (by norm_num) (by norm_num) (by norm_num)]⟩

/-! ## Claim C9 -/

/-- C9: a `validationReceived` message whose `ledger_index` is absent or
falsy (e.g. 0) leaves the handler state completely unchanged — in
particular `validations_checked_total` is not incremented — while every
message with a truthy `ledger_index` (our validator's or foreign,
duplicate or not) increments `validations_checked_total` by exactly 1. -/
theorem validation_falsy_index (lookup : Option (ℕ → Option String)) (mono wall : ℚ)
    (msg : ValidationMessage) (st : VHState) :
    ((msg.ledger_index = none ∨ msg.ledger_index = some 0) →
      handleValidation lookup mono wall msg st = st) ∧
    (∀ idx, msg.ledger_index = some idx → idx ≠ 0 →
      (handleValidation lookup mono wall msg st).validations_checked_total
        = st.validations_checked_total + 1) := by
  constructor
  · rintro (h | h) <;> simp [handleValidation, h]
  · intro idx h hne
    simp only [handleValidation, h]
    rw [if_neg hne]
    split_ifs <;> simp [pruneOldRecords]

/-- C9 witness: a message with `ledger_index` 0 leaves a fresh handler
state untouched, and a foreign-validator message with index 5 bumps only
the checked counter. -/
theorem validation_falsy_index_witness :
    handleValidation none 1 2 { ledger_index := some 0, ledger_hash := some "A" } {} = {} ∧
    (handleValidation none 1 2
        { validation_public_key := some "nFOREIGN", ledger_index := some 5,
          ledger_hash := some "A" }
        { our_validator_key := some "nHOURS" }).validations_checked_total = 0 + 1 :=
  ⟨(validation_falsy_index none 1 2 { ledger_index := some 0, ledger_hash := some "A" } {}).1
     (Or.inr rfl),
   (validation_falsy_index none 1 2 _ { our_validator_key := some "nHOURS" }).2 5 rfl
     (by decide)⟩

/-! ## Claim C1 -/

theorem runTrace_cons (e : LedgerEvent) (tr : List LedgerEvent)
    (s : Option PendingLedgerRecord × ReconAcc) :
    runTrace (e :: tr) s = runTrace tr (stepRecord e s) := rfl

theorem runTrace_append (l1 l2 : List LedgerEvent)
    (s : Option PendingLedgerRecord × ReconAcc) :
    runTrace (l1 ++ l2) s = runTrace l2 (runTrace l1 s) := by
  simp [runTrace, List.foldl_append]

theorem reconcileOne_sum (now wall : ℚ) (rec : PendingLedgerRecord) (acc : ReconAcc) :
    ((reconcileOne now wall rec acc).2.agreements_total
        + (reconcileOne now wall rec acc).2.missed_total)
        + (if rec.finalized = true then 1 else 0)
      = (acc.agreements_total + acc.missed_total)
        + (if finalizedOf (reconcileOne now wall rec acc).1 = true then 1 else 0) := by
  rcases hc : rec.consensus_hash with _ | chash
  · simp [reconcileOne, hc, finalizedOf]
  rcases hcl : rec.closed_at with _ | t0
  · simp [reconcileOne, hc, hcl, finalizedOf]
  by_cases hf : rec.finalized = true
  · rcases hm : rec.finalized_as_missed_at with _ | tm
    · by_cases hcln : now - t0 > cleanupAge <;>
        simp [reconcileOne, hc, hcl, hf, hm, hcln, finalizedOf]
    · rcases hoh : rec.our_hash with _ | ourHash
      · by_cases hcln : now - t0 > cleanupAge <;>
          simp [reconcileOne, hc, hcl, hf, hm, hoh, hcln, finalizedOf]
      · by_cases hwin : now - tm ≤ lateRepairWindow
        · by_cases hmatch : ourHash = chash <;>
            by_cases hcln : now - t0 > cleanupAge <;>
              (simp [reconcileOne, hc, hcl, hf, hm, hoh, hwin, hmatch, hcln, finalizedOf]
               <;> try ring)
        · by_cases hcln : now - t0 > cleanupAge <;>
            simp [reconcileOne, hc, hcl, hf, hm, hoh, hwin, hcln, finalizedOf]
  · have hf2 : rec.finalized = false := by
      cases hfe : rec.finalized
      · rfl
      · exact absurd hfe hf
    by_cases hage : now - t0 > gracePeriod
    · rcases hoh : rec.our_hash with _ | ourHash
      · simp [reconcileOne, hc, hcl, hf2, hage, hoh, finalizedOf]
        try ring
      · by_cases hmatch : ourHash = chash <;>
          · simp [reconcileOne, hc, hcl, hf2, hage, hoh, hmatch, finalizedOf]
            try ring
    · simp [reconcileOne, hc, hcl, hf2, hage, finalizedOf]

theorem reconcileOne_mono (now wall : ℚ) (rec : PendingLedgerRecord) (acc : ReconAcc)
    (hf : rec.finalized = true) :
    finalizedOf (reconcileOne now wall rec acc).1 = true := by
  rcases hc : rec.consensus_hash with _ | chash
  · simp [reconcileOne, hc, finalizedOf, hf]
  rcases hcl : rec.closed_at with _ | t0
  · simp [reconcileOne, hc, hcl, finalizedOf, hf]
  rcases hm : rec.finalized_as_missed_at with _ | tm
  · by_cases hcln : now - t0 > cleanupAge <;>
      simp [reconcileOne, hc, hcl, hf, hm, hcln, finalizedOf]
  · rcases hoh : rec.our_hash with _ | ourHash
    · by_cases hcln : now - t0 > cleanupAge <;>
        simp [reconcileOne, hc, hcl, hf, hm, hoh, hcln, finalizedOf]
    · by_cases hwin : now - tm ≤ lateRepairWindow
      · by_cases hmatch : ourHash = chash <;>
          by_cases hcln : now - t0 > cleanupAge <;>
            simp [reconcileOne, hc, hcl, hf, hm, hoh, hwin, hmatch, hcln, finalizedOf]
      · by_cases hcln : now - t0 > cleanupAge <;>
          simp [reconcileOne, hc, hcl, hf, hm, hoh, hwin, hcln, finalizedOf]

theorem reconcileOne_keeps (now wall : ℚ) (rec : PendingLedgerRecord) (acc : ReconAcc) :
    ∀ rec2, (reconcileOne now wall rec acc).1 = some rec2 →
      rec2.consensus_hash = rec.consensus_hash ∧ rec2.closed_at = rec.closed_at := by
  intro rec2
  rcases hc : rec.consensus_hash with _ | chash
  · simp only [reconcileOne, hc, Option.some.injEq]
    rintro rfl
    exact ⟨hc, rfl⟩
  rcases hcl : rec.closed_at with _ | t0
  · simp only [reconcileOne, hc, hcl, Option.some.injEq]
    rintro rfl
    exact ⟨hc, hcl⟩
  by_cases hf : rec.finalized = true
  · rcases hm : rec.finalized_as_missed_at with _ | tm
    · by_cases hcln : now - t0 > cleanupAge <;>
        simp [reconcileOne, hc, hcl, hf, hm, hcln, finalizedOf] <;>
        (rintro rfl; simp [hc, hcl])
    · rcases hoh : rec.our_hash with _ | ourHash
      · by_cases hcln : now - t0 > cleanupAge <;>
          simp [reconcileOne, hc, hcl, hf, hm, hoh, hcln, finalizedOf] <;>
          (rintro rfl; simp [hc, hcl])
      · by_cases hwin : now - tm ≤ lateRepairWindow
        · by_cases hmatch : ourHash = chash <;>
            by_cases hcln : now - t0 > cleanupAge <;>
              simp [reconcileOne, hc, hcl, hf, hm, hoh, hwin, hmatch, hcln, finalizedOf] <;>
              (rintro rfl; simp [hc, hcl])
        · by_cases hcln : now - t0 > cleanupAge <;>
            simp [reconcileOne, hc, hcl, hf, hm, hoh, hwin, hcln, finalizedOf] <;>
            (rintro rfl; simp [hc, hcl])
  · have hf2 : rec.finalized = false := by
      cases hfe : rec.finalized
      · rfl
      · exact absurd hfe hf
    by_cases hage : now - t0 > gracePeriod
    · rcases hoh : rec.our_hash with _ | ourHash
      · simp [reconcileOne, hc, hcl, hf2, hage, hoh, finalizedOf] <;>
          (rintro rfl; simp [hc, hcl])
      · by_cases hmatch : ourHash = chash <;>
          simp [reconcileOne, hc, hcl, hf2, hage, hoh, hmatch, finalizedOf] <;>
          (rintro rfl; simp [hc, hcl])
    · simp [reconcileOne, hc, hcl, hf2, hage, finalizedOf] <;>
        (rintro rfl; simp [hc, hcl])

theorem reconcileOne_finalizes (now wall : ℚ) (rec : PendingLedgerRecord) (acc : ReconAcc)
    (chash : String) (t0 : ℚ)
    (hf : rec.finalized = false) (hc : rec.consensus_hash = some chash)
    (hcl : rec.closed_at = some t0) (hage : now - t0 > gracePeriod) :
    finalizedOf (reconcileOne now wall rec acc).1 = true := by
  simp only [reconcileOne, hc, hcl, hf, Bool.false_eq_true, if_false, false_and, and_false,
    true_and, if_true, hage]
  rcases hoh : rec.our_hash with _ | ourHash
  · simp [hoh, finalizedOf]
  · by_cases hmatch : ourHash = chash <;> simp [hoh, hmatch, finalizedOf]

theorem stepRecord_sum (e : LedgerEvent) (s : Option PendingLedgerRecord × ReconAcc) :
    ((stepRecord e s).2.agreements_total + (stepRecord e s).2.missed_total)
        + (if finalizedOf s.1 = true then 1 else 0)
      = (s.2.agreements_total + s.2.missed_total)
        + (if finalizedOf (stepRecord e s).1 = true then 1 else 0) := by
  obtain ⟨orec, acc⟩ := s
  rcases orec with _ | rec
  · simp [stepRecord]
  · cases e with
    | ourValidation now h => simp [stepRecord, applyOurValidation, finalizedOf]
    | ledgerClosed now h => simp [stepRecord, applyLedgerClosed, finalizedOf]
    | cycle now wall =>
      have := reconcileOne_sum now wall rec acc
      simpa [stepRecord, finalizedOf] using this

theorem stepRecord_mono (e : LedgerEvent) (s : Option PendingLedgerRecord × ReconAcc)
    (h : finalizedOf s.1 = true) : finalizedOf (stepRecord e s).1 = true := by
  obtain ⟨orec, acc⟩ := s
  rcases orec with _ | rec
  · simp [stepRecord, finalizedOf]
  · cases e with
    | ourValidation now hh => simpa [stepRecord, applyOurValidation, finalizedOf] using h
    | ledgerClosed now hh => simpa [stepRecord, applyLedgerClosed, finalizedOf] using h
    | cycle now wall =>
      simp only [finalizedOf] at h
      simpa [stepRecord] using reconcileOne_mono now wall rec acc h

theorem stepRecord_keeps (t0 : ℚ) (e : LedgerEvent) (s : Option PendingLedgerRecord × ReconAcc)
    (h : ∀ r, s.1 = some r → r.consensus_hash.isSome = true ∧ r.closed_at = some t0) :
    ∀ r2, (stepRecord e s).1 = some r2 →
      r2.consensus_hash.isSome = true ∧ r2.closed_at = some t0 := by
  obtain ⟨orec, acc⟩ := s
  rcases orec with _ | rec
  · intro r2 hr2
    cases hr2
  · have hrec := h rec rfl
    cases e with
    | ourValidation now hh =>
      intro r2 hr2
      simp only [stepRecord, Option.some.injEq] at hr2
      subst hr2
      exact ⟨by simpa [applyOurValidation] using hrec.1, by simp [applyOurValidation, hrec.2]⟩
    | ledgerClosed now hh =>
      intro r2 hr2
      simp only [stepRecord, Option.some.injEq] at hr2
      subst hr2
      refine ⟨by simp [applyLedgerClosed], ?_⟩
      simp [applyLedgerClosed, hrec.2]
    | cycle now wall =>
      intro r2 hr2
      simp only [stepRecord] at hr2
      obtain ⟨heq1, heq2⟩ := reconcileOne_keeps now wall rec acc r2 hr2
      exact ⟨by rw [heq1]; exact hrec.1, by rw [heq2]; exact hrec.2⟩

theorem runTrace_mono (tr : List LedgerEvent) :
    ∀ s : Option PendingLedgerRecord × ReconAcc, finalizedOf s.1 = true →
      finalizedOf (runTrace tr s).1 = true := by
  induction tr with
  | nil => intro s h; simpa [runTrace] using h
  | cons e tr ih =>
    intro s h
    rw [runTrace_cons]
    exact ih _ (stepRecord_mono e s h)

theorem runTrace_invariant (t0 : ℚ) (tr : List LedgerEvent) :
    ∀ s : Option PendingLedgerRecord × ReconAcc,
      (∀ r, s.1 = some r → r.consensus_hash.isSome = true ∧ r.closed_at = some t0) →
      (((runTrace tr s).2.agreements_total + (runTrace tr s).2.missed_total)
          + (if finalizedOf s.1 = true then 1 else 0)
        = (s.2.agreements_total + s.2.missed_total)
          + (if finalizedOf (runTrace tr s).1 = true then 1 else 0)) ∧
      (∀ r, (runTrace tr s).1 = some r →
        r.consensus_hash.isSome = true ∧ r.closed_at = some t0) := by
  induction tr with
  | nil => intro s h; exact ⟨by simp [runTrace], h⟩
  | cons e tr ih =>
    intro s h
    rw [runTrace_cons]
    obtain ⟨ih1, ih2⟩ := ih (stepRecord e s) (stepRecord_keeps t0 e s h)
    refine ⟨?_, ih2⟩
    have hstep := stepRecord_sum e s
    split_ifs at ih1 hstep ⊢ <;> omega

/-- C1: starting from a PendingLedger whose close has been observed
(consensus hash and close time set) and which is not yet finalized, any
interleaving of callbacks and reconciliation cycles changes
`agreements_total + missed_total` by exactly the finalization indicator:
one single net増 increment once the record is finalized (the late-repair
adjustment subtracts and re-adds within one cycle), and zero before; and
as soon as some cycle runs more than the 8-second grace period after the
close time, the record is finalized. -/
theorem reconciliation_exactly_once (rec0 : PendingLedgerRecord) (acc0 : ReconAcc)
    (t0 : ℚ) (tr : List LedgerEvent)
    (hc : rec0.consensus_hash.isSome = true) (hcl : rec0.closed_at = some t0)
    (hfin : rec0.finalized = false) :
    ((runTrace tr (some rec0, acc0)).2.agreements_total
        + (runTrace tr (some rec0, acc0)).2.missed_total
      = (acc0.agreements_total + acc0.missed_total)
        + (if finalizedOf (runTrace tr (some rec0, acc0)).1 = true then 1 else 0)) ∧
    ((∃ e ∈ tr, ∃ now wall, e = LedgerEvent.cycle now wall ∧ now - t0 > gracePeriod) →
      finalizedOf (runTrace tr (some rec0, acc0)).1 = true) := by
  have hinit : ∀ r, ((some rec0 : Option PendingLedgerRecord), acc0).1 = some r →
      r.consensus_hash.isSome = true ∧ r.closed_at = some t0 := by
    intro r hr
    simp only [Option.some.injEq] at hr
    subst hr
    exact ⟨hc, hcl⟩
  constructor
  · have hrun := (runTrace_invariant t0 tr (some rec0, acc0) hinit).1
    have h0 : (if finalizedOf ((some rec0 : Option PendingLedgerRecord), acc0).1 = true
        then (1 : ℤ) else 0) = 0 := by
      simp [finalizedOf, hfin]
    rw [h0] at hrun
    dsimp only at hrun ⊢
    split_ifs at hrun ⊢ <;> omega
  · rintro ⟨e, hmem, now, wall, rfl, hage⟩
    obtain ⟨l1, l2, rfl⟩ := List.append_of_mem hmem
    rw [runTrace_append, runTrace_cons]
    apply runTrace_mono
    have hkeep := (runTrace_invariant t0 l1 (some rec0, acc0) hinit).2
    rcases hs : (runTrace l1 (some rec0, acc0)).1 with _ | r
    · have : finalizedOf (runTrace l1 (some rec0, acc0)).1 = true := by
        rw [hs]; rfl
      exact stepRecord_mono _ _ this
    · obtain ⟨hrc, hrcl⟩ := hkeep r hs
      by_cases hrf : r.finalized = true
      · apply stepRecord_mono
        rw [hs]
        exact hrf
      · have hrf2 : r.finalized = false := by
          cases hfe : r.finalized
          · rfl
          · exact absurd hfe hrf
        rcases ho : r.consensus_hash with _ | chash
        · rw [ho] at hrc
          cases hrc
        · have hstep : stepRecord (LedgerEvent.cycle now wall) (runTrace l1 (some rec0, acc0))
              = reconcileOne now wall r (runTrace l1 (some rec0, acc0)).2 := by
            have hpair : runTrace l1 (some rec0, acc0)
                = (some r, (runTrace l1 (some rec0, acc0)).2) := by
              rw [Prod.ext_iff]
              exact ⟨hs, rfl⟩
            rw [hpair]
            rfl
          rw [hstep]
          exact reconcileOne_finalizes now wall r _ chash t0 hrf2 ho hrcl hage

/-- C1 witness: ledger 100 closes at monotonic time 0 with hash "A"; our
validation arrives at time 1; cycles run at 5, 9 and 10 seconds.  The
counters gain exactly one net increment and the record is finalized. -/
theorem reconciliation_exactly_once_witness :
    (runTrace [LedgerEvent.ourValidation 1 "A", LedgerEvent.cycle 5 50,
        LedgerEvent.cycle 9 90, LedgerEvent.cycle 10 100]
      (some ⟨100, some "A", none, some 0, none, false, none⟩, ⟨3, 4, [], [], []⟩)).2.agreements_total
      + (runTrace [LedgerEvent.ourValidation 1 "A", LedgerEvent.cycle 5 50,
          LedgerEvent.cycle 9 90, LedgerEvent.cycle 10 100]
        (some ⟨100, some "A", none, some 0, none, false, none⟩, ⟨3, 4, [], [], []⟩)).2.missed_total
      = (3 + 4)
        + (if finalizedOf (runTrace [LedgerEvent.ourValidation 1 "A", LedgerEvent.cycle 5 50,
            LedgerEvent.cycle 9 90, LedgerEvent.cycle 10 100]
          (some ⟨100, some "A", none, some 0, none, false, none⟩,
           ⟨3, 4, [], [], []⟩)).1 = true then 1 else 0) :=
  (reconciliation_exactly_once ⟨100, some "A", none, some 0, none, false, none⟩
    ⟨3, 4, [], [], []⟩ 0 _ rfl rfl rfl).1

/-! ## Claim C10 -/

theorem ledgerHandle_skip (hasVH : Bool) (wall mono : ℚ) (msg : LedgerMessage)
    (st : LHState)
    (h : msg.ledger_index = none ∨ msg.ledger_time = none ∨ msg.ledger_index = some 0 ∨
         msg.ledger_time = some 0 ∨ msg.ledger_hash = none ∨ msg.ledger_hash = some "") :
    (ledgerHandle hasVH wall mono msg st).ledger_hashes = st.ledger_hashes ∧
    (ledgerHandle hasVH wall mono msg st).hash_count = st.hash_count ∧
    (ledgerHandle hasVH wall mono msg st).ledger_hash_lookup = st.ledger_hash_lookup := by
  rcases hidx : msg.ledger_index with _ | idx
  · simp [ledgerHandle, hidx]
  rcases hlt : msg.ledger_time with _ | lt
  · simp [ledgerHandle, hidx, hlt]
  by_cases hz : idx = 0 ∨ lt = 0
  · simp [ledgerHandle, hidx, hlt, hz]
  · have hh : msg.ledger_hash = none ∨ msg.ledger_hash = some "" := by
      rcases h with h | h | h | h | h | h
      · rw [hidx] at h; cases h
      · rw [hlt] at h; cases h
      · rw [hidx] at h
        exact absurd (Or.inl (Option.some.inj h)) hz
      · rw [hlt] at h
        exact absurd (Or.inr (Option.some.inj h)) hz
      · exact Or.inl h
      · exact Or.inr h
    rcases hh with hh | hh <;>
      simp [ledgerHandle, hidx, hlt, hz, hh, pyTruthyStr]

theorem ledgerHandle_insert (hasVH : Bool) (wall mono : ℚ) (msg : LedgerMessage)
    (st : LHState) (idx lt : ℕ) (h : String)
    (hidx : msg.ledger_index = some idx) (hlt : msg.ledger_time = some lt)
    (hz : ¬ (idx = 0 ∨ lt = 0)) (hh : msg.ledger_hash = some h) (hh0 : ¬ h = "") :
    (ledgerHandle hasVH wall mono msg st).ledger_hashes
        = (if st.hash_count = ledgerHashBufferSize
           then ((idx, h) :: st.ledger_hashes).dropLast
           else (idx, h) :: st.ledger_hashes) ∧
    (ledgerHandle hasVH wall mono msg st).hash_count
        = min (st.hash_count + 1) ledgerHashBufferSize ∧
    (ledgerHandle hasVH wall mono msg st).ledger_hash_lookup
        = (if (dictInsert idx h st.ledger_hash_lookup).length > ledgerHashBufferSize
           then (dictInsert idx h st.ledger_hash_lookup).filter
               (fun p => (if st.hash_count = ledgerHashBufferSize
                   then ((idx, h) :: st.ledger_hashes).dropLast
                   else (idx, h) :: st.ledger_hashes).any (fun q => q.1 = p.1))
           else dictInsert idx h st.ledger_hash_lookup) := by
  refine ⟨?_, ?_, ?_⟩ <;> simp [ledgerHandle, hidx, hlt, hz, hh, pyTruthyStr, hh0]

theorem dictInsert_keys (k : ℕ) (v : String) (d : List (ℕ × String)) :
    (dictInsert k v d).map Prod.fst
      = if d.any (fun p => p.1 = k) then d.map Prod.fst else d.map Prod.fst ++ [k] := by
  unfold dictInsert
  by_cases hp : d.any (fun p => p.1 = k)
  · rw [if_pos hp, if_pos hp, List.map_map]
    apply List.map_congr_left
    intro p _
    by_cases hpk : p.1 = k <;> simp [hpk]
  · rw [if_neg hp, if_neg hp]
    simp

theorem dictInsert_length (k : ℕ) (v : String) (d : List (ℕ × String)) :
    (dictInsert k v d).length
      = if d.any (fun p => p.1 = k) then d.length else d.length + 1 := by
  unfold dictInsert
  by_cases hp : d.any (fun p => p.1 = k) <;> simp [hp]

theorem any_key_iff (d : List (ℕ × String)) (k : ℕ) :
    d.any (fun p => p.1 = k) = true ↔ k ∈ d.map Prod.fst := by
  simp only [List.any_eq_true, List.mem_map, decide_eq_true_eq]

theorem filter_any_length_le (d buf : List (ℕ × String))
    (hd : (d.map Prod.fst).Nodup) :
    (d.filter (fun p => buf.any (fun q => q.1 = p.1))).length ≤ buf.length := by
  have hsub : List.Sublist (d.filter (fun p => buf.any (fun q => q.1 = p.1))) d :=
    List.filter_sublist d
  have hnd : ((d.filter (fun p => buf.any (fun q => q.1 = p.1))).map Prod.fst).Nodup :=
    List.Nodup.sublist (hsub.map Prod.fst) hd
  have hss : (d.filter (fun p => buf.any (fun q => q.1 = p.1))).map Prod.fst
      ⊆ buf.map Prod.fst := by
    intro x hx
    obtain ⟨p, hp, rfl⟩ := List.mem_map.1 hx
    have hmem := List.mem_filter.1 hp
    have hq := (any_key_iff buf p.1).1 hmem.2
    exact hq
  calc (d.filter (fun p => buf.any (fun q => q.1 = p.1))).length
      = ((d.filter (fun p => buf.any (fun q => q.1 = p.1))).map Prod.fst).length :=
        (List.length_map _ _).symm
    _ ≤ (buf.map Prod.fst).length := (List.subperm_of_subset hnd hss).length_le
    _ = buf.length := List.length_map _ _

theorem nodup_mem_length_eq {l1 l2 : List ℕ} (h1 : l1.Nodup) (h2 : l2.Nodup)
    (h : ∀ x, x ∈ l1 ↔ x ∈ l2) : l1.length = l2.length :=
  (List.perm_of_nodup_nodup_toFinset_eq h1 h2
    (by ext x; simp [List.mem_toFinset, h x])).length_eq

theorem dictInsert_keys_nodup (k : ℕ) (v : String) (d : List (ℕ × String))
    (hd : (d.map Prod.fst).Nodup) : ((dictInsert k v d).map Prod.fst).Nodup := by
  rw [dictInsert_keys]
  by_cases hp : d.any (fun p => p.1 = k)
  · rw [if_pos hp]
    exact hd
  · rw [if_neg hp]
    rw [List.nodup_append]
    refine ⟨hd, List.nodup_singleton k, ?_⟩
    intro x hx hxk
    rw [List.mem_singleton] at hxk
    subst hxk
    exact hp ((any_key_iff d x).2 hx)

theorem dictInsert_keys_sub (k : ℕ) (v : String) (d : List (ℕ × String)) :
    ∀ x ∈ (dictInsert k v d).map Prod.fst, x ∈ d.map Prod.fst ∨ x = k := by
  intro x hx
  rw [dictInsert_keys] at hx
  by_cases hp : d.any (fun p => p.1 = k)
  · rw [if_pos hp] at hx
    exact Or.inl hx
  · rw [if_neg hp] at hx
    rcases List.mem_append.1 hx with hx | hx
    · exact Or.inl hx
    · exact Or.inr (List.mem_singleton.1 hx)

theorem dictInsert_absent (k : ℕ) (v : String) (d : List (ℕ × String))
    (hp : ¬ d.any (fun p => p.1 = k) = true) :
    dictInsert k v d = d ++ [(k, v)] := by
  unfold dictInsert
  rw [if_neg hp]

theorem mem_filter_keys (d buf : List (ℕ × String)) (x : ℕ) :
    x ∈ (d.filter (fun p => buf.any (fun q => q.1 = p.1))).map Prod.fst
      ↔ x ∈ d.map Prod.fst ∧ x ∈ buf.map Prod.fst := by
  constructor
  · intro hx
    obtain ⟨p, hp, rfl⟩ := List.mem_map.1 hx
    have hmem := List.mem_filter.1 hp
    exact ⟨List.mem_map.2 ⟨p, hmem.1, rfl⟩, (any_key_iff buf p.1).1 hmem.2⟩
  · rintro ⟨hx1, hx2⟩
    obtain ⟨p, hp, rfl⟩ := List.mem_map.1 hx1
    exact List.mem_map.2 ⟨p, List.mem_filter.2 ⟨hp, (any_key_iff buf p.1).2 hx2⟩, rfl⟩

theorem LHInv_of_fields {st1 st2 : LHState}
    (h1 : st2.ledger_hashes = st1.ledger_hashes) (h2 : st2.hash_count = st1.hash_count)
    (h3 : st2.ledger_hash_lookup = st1.ledger_hash_lookup) (hinv : LHInv st1) :
    LHInv st2 := by
  obtain ⟨a, b, c, d⟩ := hinv
  exact ⟨by rw [h2, h1]; exact a, by rw [h1]; exact b,
    by simpa [lookupKeys, h3] using c, by rw [h3]; exact d⟩

theorem LHSync_of_fields {st1 st2 : LHState}
    (h1 : st2.ledger_hashes = st1.ledger_hashes)
    (h3 : st2.ledger_hash_lookup = st1.ledger_hash_lookup) (hsync : LHSync st1) :
    LHSync st2 := by
  obtain ⟨a, b⟩ := hsync
  exact ⟨by simpa [lookupKeys, bufferIndices, h1, h3] using a,
    by simpa [bufferIndices, h1] using b⟩

theorem LH_step_inv (hasVH : Bool) (wall mono : ℚ) (msg : LedgerMessage) (st : LHState)
    (hinv : LHInv st) : LHInv (ledgerHandle hasVH wall mono msg st) := by
  rcases hidx : msg.ledger_index with _ | idx
  · obtain ⟨e1, e2, e3⟩ := ledgerHandle_skip hasVH wall mono msg st (Or.inl hidx)
    exact LHInv_of_fields e1 e2 e3 hinv
  rcases hlt : msg.ledger_time with _ | lt
  · obtain ⟨e1, e2, e3⟩ := ledgerHandle_skip hasVH wall mono msg st (Or.inr (Or.inl hlt))
    exact LHInv_of_fields e1 e2 e3 hinv
  by_cases hz : idx = 0 ∨ lt = 0
  · have hsk : msg.ledger_index = some 0 ∨ msg.ledger_time = some 0 := by
      rcases hz with hz | hz
      · exact Or.inl (hz ▸ hidx)
      · exact Or.inr (hz ▸ hlt)
    obtain ⟨e1, e2, e3⟩ := ledgerHandle_skip hasVH wall mono msg st
      (by rcases hsk with hsk | hsk
          · exact Or.inr (Or.inr (Or.inl hsk))
          · exact Or.inr (Or.inr (Or.inr (Or.inl hsk))))
    exact LHInv_of_fields e1 e2 e3 hinv
  rcases hh : msg.ledger_hash with _ | h
  · obtain ⟨e1, e2, e3⟩ := ledgerHandle_skip hasVH wall mono msg st
      (Or.inr (Or.inr (Or.inr (Or.inr (Or.inl hh)))))
    exact LHInv_of_fields e1 e2 e3 hinv
  by_cases hh0 : h = ""
  · obtain ⟨e1, e2, e3⟩ := ledgerHandle_skip hasVH wall mono msg st
      (Or.inr (Or.inr (Or.inr (Or.inr (Or.inr (hh0 ▸ hh))))))
    exact LHInv_of_fields e1 e2 e3 hinv
  obtain ⟨hcnt, hlen, hnd, hlk⟩ := hinv
  obtain ⟨e1, e2, e3⟩ := ledgerHandle_insert hasVH wall mono msg st idx lt h hidx hlt hz hh hh0
  have hbuf : (ledgerHandle hasVH wall mono msg st).ledger_hashes.length
      = min (st.hash_count + 1) ledgerHashBufferSize := by
    rw [e1]
    by_cases hfull : st.hash_count = ledgerHashBufferSize
    · rw [if_pos hfull, List.length_dropLast, List.length_cons, ← hcnt, hfull]
      unfold ledgerHashBufferSize
      omega
    · rw [if_neg hfull, List.length_cons, ← hcnt]
      have : st.hash_count < ledgerHashBufferSize := lt_of_le_of_ne (hcnt ▸ hlen) hfull
      omega
  have hbufle : (ledgerHandle hasVH wall mono msg st).ledger_hashes.length
      ≤ ledgerHashBufferSize := by
    rw [hbuf]
    omega
  refine ⟨by rw [e2, hbuf], hbufle, ?_, ?_⟩
  · have hkeys : (lookupKeys (ledgerHandle hasVH wall mono msg st)).Nodup := by
      unfold lookupKeys
      rw [e3]
      by_cases hover : (dictInsert idx h st.ledger_hash_lookup).length > ledgerHashBufferSize
      · rw [if_pos hover]
        exact List.Nodup.sublist ((List.filter_sublist _).map Prod.fst)
          (dictInsert_keys_nodup idx h st.ledger_hash_lookup hnd)
      · rw [if_neg hover]
        exact dictInsert_keys_nodup idx h st.ledger_hash_lookup hnd
    exact hkeys
  · rw [e3]
    by_cases hover : (dictInsert idx h st.ledger_hash_lookup).length > ledgerHashBufferSize
    · rw [if_pos hover]
      calc ((dictInsert idx h st.ledger_hash_lookup).filter _).length
          ≤ (if st.hash_count = ledgerHashBufferSize
             then ((idx, h) :: st.ledger_hashes).dropLast
             else (idx, h) :: st.ledger_hashes).length :=
            filter_any_length_le _ _ (dictInsert_keys_nodup idx h st.ledger_hash_lookup hnd)
        _ ≤ ledgerHashBufferSize := by rw [← e1]; exact hbufle
    · rw [if_neg hover]
      omega

theorem LH_step_keys (hasVH : Bool) (wall mono : ℚ) (msg : LedgerMessage) (st : LHState) :
    ∀ k, k ∈ lookupKeys (ledgerHandle hasVH wall mono msg st) →
      k ∈ lookupKeys st ∨ msg.ledger_index = some k := by
  intro k hk
  rcases hidx : msg.ledger_index with _ | idx
  · obtain ⟨_, _, e3⟩ := ledgerHandle_skip hasVH wall mono msg st (Or.inl hidx)
    left
    simpa [lookupKeys, e3] using hk
  rcases hlt : msg.ledger_time with _ | lt
  · obtain ⟨_, _, e3⟩ := ledgerHandle_skip hasVH wall mono msg st (Or.inr (Or.inl hlt))
    left
    simpa [lookupKeys, e3] using hk
  by_cases hz : idx = 0 ∨ lt = 0
  · obtain ⟨_, _, e3⟩ := ledgerHandle_skip hasVH wall mono msg st
      (by rcases hz with hz | hz
          · exact Or.inr (Or.inr (Or.inl (hz ▸ hidx)))
          · exact Or.inr (Or.inr (Or.inr (Or.inl (hz ▸ hlt)))))
    left
    simpa [lookupKeys, e3] using hk
  rcases hh : msg.ledger_hash with _ | h
  · obtain ⟨_, _, e3⟩ := ledgerHandle_skip hasVH wall mono msg st
      (Or.inr (Or.inr (Or.inr (Or.inr (Or.inl hh)))))
    left
    simpa [lookupKeys, e3] using hk
  by_cases hh0 : h = ""
  · obtain ⟨_, _, e3⟩ := ledgerHandle_skip hasVH wall mono msg st
      (Or.inr (Or.inr (Or.inr (Or.inr (Or.inr (hh0 ▸ hh))))))
    left
    simpa [lookupKeys, e3] using hk
  obtain ⟨_, _, e3⟩ := ledgerHandle_insert hasVH wall mono msg st idx lt h hidx hlt hz hh hh0
  rw [lookupKeys, e3] at hk
  have hk2 : k ∈ (dictInsert idx h st.ledger_hash_lookup).map Prod.fst := by
    by_cases hover : (dictInsert idx h st.ledger_hash_lookup).length > ledgerHashBufferSize
    · rw [if_pos hover] at hk
      exact ((List.filter_sublist _).map Prod.fst).subset hk
    · rw [if_neg hover] at hk
      exact hk
  rcases dictInsert_keys_sub idx h st.ledger_hash_lookup k hk2 with hk3 | hk3
  · exact Or.inl hk3
  · right
    rw [hk3]

theorem LH_run_inv (hasVH : Bool) (wall mono : ℚ) :
    ∀ msgs : List LedgerMessage, ∀ st : LHState, LHInv st →
      LHInv (runLedgerHandle hasVH wall mono msgs st) := by
  intro msgs
  induction msgs with
  | nil => intro st h; exact h
  | cons m ms ih =>
    intro st h
    exact ih _ (LH_step_inv hasVH wall mono m st h)

theorem LH_run_keys (hasVH : Bool) (wall mono : ℚ) :
    ∀ msgs : List LedgerMessage, ∀ st : LHState, ∀ k,
      k ∈ lookupKeys (runLedgerHandle hasVH wall mono msgs st) →
      k ∈ lookupKeys st ∨ k ∈ msgLedgerIndices msgs := by
  intro msgs
  induction msgs with
  | nil => intro st k hk; exact Or.inl hk
  | cons m ms ih =>
    intro st k hk
    rcases ih (ledgerHandle hasVH wall mono m st) k hk with hk2 | hk2
    · rcases LH_step_keys hasVH wall mono m st k hk2 with hk3 | hk3
      · exact Or.inl hk3
      · right
        simp [msgLedgerIndices, List.filterMap_cons, hk3]
    · right
      rcases hidx : m.ledger_index with _ | idx <;>
        simp [msgLedgerIndices, List.filterMap_cons, hidx] <;>
        simp [msgLedgerIndices] at hk2 <;>
        tauto

theorem LH_step_sync (hasVH : Bool) (wall mono : ℚ) (msg : LedgerMessage) (st : LHState)
    (hinv : LHInv st) (hsync : LHSync st)
    (hfresh : ∀ i, msg.ledger_index = some i → i ∉ lookupKeys st) :
    LHSync (ledgerHandle hasVH wall mono msg st) := by
  rcases hidx : msg.ledger_index with _ | idx
  · obtain ⟨e1, _, e3⟩ := ledgerHandle_skip hasVH wall mono msg st (Or.inl hidx)
    exact LHSync_of_fields e1 e3 hsync
  rcases hlt : msg.ledger_time with _ | lt
  · obtain ⟨e1, _, e3⟩ := ledgerHandle_skip hasVH wall mono msg st (Or.inr (Or.inl hlt))
    exact LHSync_of_fields e1 e3 hsync
  by_cases hz : idx = 0 ∨ lt = 0
  · obtain ⟨e1, _, e3⟩ := ledgerHandle_skip hasVH wall mono msg st
      (by rcases hz with hz | hz
          · exact Or.inr (Or.inr (Or.inl (hz ▸ hidx)))
          · exact Or.inr (Or.inr (Or.inr (Or.inl (hz ▸ hlt)))))
    exact LHSync_of_fields e1 e3 hsync
  rcases hh : msg.ledger_hash with _ | h
  · obtain ⟨e1, _, e3⟩ := ledgerHandle_skip hasVH wall mono msg st
      (Or.inr (Or.inr (Or.inr (Or.inr (Or.inl hh)))))
    exact LHSync_of_fields e1 e3 hsync
  by_cases hh0 : h = ""
  · obtain ⟨e1, _, e3⟩ := ledgerHandle_skip hasVH wall mono msg st
      (Or.inr (Or.inr (Or.inr (Or.inr (Or.inr (hh0 ▸ hh))))))
    exact LHSync_of_fields e1 e3 hsync
  obtain ⟨hcnt, hlen, hnd, hlk⟩ := hinv
  obtain ⟨hiff, hbnd⟩ := hsync
  obtain ⟨e1, _, e3⟩ := ledgerHandle_insert hasVH wall mono msg st idx lt h hidx hlt hz hh hh0
  have hkfresh : idx ∉ lookupKeys st := hfresh idx hidx
  have hknotbuf : idx ∉ bufferIndices st := fun hmem => hkfresh ((hiff idx).2 hmem)
  have hpres : ¬ st.ledger_hash_lookup.any (fun p => p.1 = idx) = true := by
    intro hx
    exact hkfresh ((any_key_iff st.ledger_hash_lookup idx).1 hx)
  have habs : dictInsert idx h st.ledger_hash_lookup
      = st.ledger_hash_lookup ++ [(idx, h)] :=
    dictInsert_absent idx h st.ledger_hash_lookup hpres
  have hlensync : st.ledger_hash_lookup.length = st.ledger_hashes.length := by
    have := nodup_mem_length_eq hnd hbnd hiff
    simpa [lookupKeys, bufferIndices] using this
  have hinslen : (dictInsert idx h st.ledger_hash_lookup).length
      = st.ledger_hashes.length + 1 := by
    rw [habs, List.length_append, List.length_singleton, hlensync]
  by_cases hfull : st.hash_count = ledgerHashBufferSize
  · -- buffer full: eviction plus dict cleanup
    have hbl : st.ledger_hashes.length = ledgerHashBufferSize := by rw [← hcnt, hfull]
    have hne : st.ledger_hashes ≠ [] := by
      intro hnil
      rw [hnil] at hbl
      simp [ledgerHashBufferSize] at hbl
    have hbuf : (ledgerHandle hasVH wall mono msg st).ledger_hashes
        = (idx, h) :: st.ledger_hashes.dropLast := by
      rw [e1, if_pos hfull, List.dropLast_cons_of_ne_nil hne]
    have hover : (dictInsert idx h st.ledger_hash_lookup).length > ledgerHashBufferSize := by
      rw [hinslen, hbl]
      omega
    have hlkp : (ledgerHandle hasVH wall mono msg st).ledger_hash_lookup
        = (dictInsert idx h st.ledger_hash_lookup).filter
            (fun p => ((idx, h) :: st.ledger_hashes.dropLast).any (fun q => q.1 = p.1)) := by
      rw [e3, if_pos hover, if_pos hfull, List.dropLast_cons_of_ne_nil hne]
    have hbufidx : bufferIndices (ledgerHandle hasVH wall mono msg st)
        = idx :: (bufferIndices st).dropLast := by
      rw [bufferIndices, hbuf, List.map_cons, List.map_dropLast]
      rfl
    have hnewnodup : (bufferIndices (ledgerHandle hasVH wall mono msg st)).Nodup := by
      rw [hbufidx, List.nodup_cons]
      refine ⟨fun hmem => hknotbuf ((List.dropLast_sublist _).subset hmem), ?_⟩
      exact List.Nodup.sublist (List.dropLast_sublist _) hbnd
    refine ⟨?_, hnewnodup⟩
    intro x
    rw [lookupKeys, hlkp, hbufidx, mem_filter_keys]
    constructor
    · rintro ⟨_, hx2⟩
      have : ((idx, h) :: st.ledger_hashes.dropLast).map Prod.fst
          = idx :: (bufferIndices st).dropLast := by
        rw [List.map_cons, List.map_dropLast]
        rfl
      rw [this] at hx2
      exact hx2
    · intro hx
      have hx2 : x ∈ ((idx, h) :: st.ledger_hashes.dropLast).map Prod.fst := by
        rw [List.map_cons, List.map_dropLast]
        exact hx
      refine ⟨?_, hx2⟩
      rw [habs, List.map_append]
      rcases List.mem_cons.1 hx with hx3 | hx3
      · subst hx3
        apply List.mem_append.2
        right
        simp
      · apply List.mem_append.2
        left
        exact (hiff x).2 ((List.dropLast_sublist _).subset hx3)
  · -- buffer not full: plain prepend, no cleanup
    have hlt2 : st.ledger_hashes.length < ledgerHashBufferSize :=
      lt_of_le_of_ne hlen (by rw [← hcnt]; exact hfull)
    have hbuf : (ledgerHandle hasVH wall mono msg st).ledger_hashes
        = (idx, h) :: st.ledger_hashes := by
      rw [e1, if_neg hfull]
    have hover : ¬ (dictInsert idx h st.ledger_hash_lookup).length > ledgerHashBufferSize := by
      rw [hinslen]
      omega
    have hlkp : (ledgerHandle hasVH wall mono msg st).ledger_hash_lookup
        = st.ledger_hash_lookup ++ [(idx, h)] := by
      rw [e3, if_neg hover, habs]
    have hbufidx : bufferIndices (ledgerHandle hasVH wall mono msg st)
        = idx :: bufferIndices st := by
      rw [bufferIndices, hbuf, List.map_cons]
      rfl
    refine ⟨?_, by rw [hbufidx, List.nodup_cons]; exact ⟨hknotbuf, hbnd⟩⟩
    intro x
    rw [lookupKeys, hlkp, hbufidx, List.map_append, List.mem_append]
    simp only [List.map_cons, List.map_nil, List.mem_singleton, List.mem_cons]
    constructor
    · rintro (hx | hx)
      · exact Or.inr ((hiff x).1 hx)
      · exact Or.inl (hx.elim id (fun hfalse => absurd hfalse (List.not_mem_nil x)))
    · rintro (hx | hx)
      · exact Or.inr (Or.inl hx)
      · exact Or.inl ((hiff x).2 hx)

theorem LH_run_sync (hasVH : Bool) (wall mono : ℚ) :
    ∀ msgs : List LedgerMessage, ∀ st : LHState, LHInv st → LHSync st →
      (msgLedgerIndices msgs).Nodup →
      (∀ i ∈ msgLedgerIndices msgs, i ∉ lookupKeys st) →
      LHSync (runLedgerHandle hasVH wall mono msgs st) := by
  intro msgs
  induction msgs with
  | nil => intro st _ h2 _ _; exact h2
  | cons m ms ih =>
    intro st h1 h2 hnd hfresh
    have hmemhead : ∀ i, m.ledger_index = some i → i ∈ msgLedgerIndices (m :: ms) := by
      intro i hi
      simp [msgLedgerIndices, List.filterMap_cons, hi]
    have hstep2 := LH_step_sync hasVH wall mono m st h1 h2
      (fun i hi => hfresh i (hmemhead i hi))
    have hstep1 := LH_step_inv hasVH wall mono m st h1
    have htail : (msgLedgerIndices ms).Nodup ∧
        (∀ i ∈ msgLedgerIndices ms, i ∉ msgLedgerIndices [m]) := by
      rcases hidx : m.ledger_index with _ | idx
      · constructor
        · simpa [msgLedgerIndices, List.filterMap_cons, hidx] using hnd
        · intro i _ hmem
          simp [msgLedgerIndices, List.filterMap_cons, hidx] at hmem
      · have : msgLedgerIndices (m :: ms) = idx :: msgLedgerIndices ms := by
          simp [msgLedgerIndices, List.filterMap_cons, hidx]
        rw [this, List.nodup_cons] at hnd
        constructor
        · exact hnd.2
        · intro i hi hmem
          simp [msgLedgerIndices, List.filterMap_cons, hidx] at hmem
          subst hmem
          exact hnd.1 hi
    refine ih _ hstep1 hstep2 htail.1 ?_
    intro i hi hmem
    rcases LH_step_keys hasVH wall mono m st i hmem with hk | hk
    · exact hfresh i (by
        rcases hidx : m.ledger_index with _ | idx <;>
          simp [msgLedgerIndices, List.filterMap_cons, hidx] <;>
          simp [msgLedgerIndices] at hi ⊢ <;> tauto) hk
    · exact htail.2 i hi (by simp [msgLedgerIndices, List.filterMap_cons, hk])

theorem runLedgerHandle_cons (hasVH : Bool) (wall mono : ℚ) (m : LedgerMessage)
    (ms : List LedgerMessage) (st : LHState) :
    runLedgerHandle hasVH wall mono (m :: ms) st
      = runLedgerHandle hasVH wall mono ms (ledgerHandle hasVH wall mono m st) := rfl

theorem runLedgerHandle_append (hasVH : Bool) (wall mono : ℚ)
    (l1 l2 : List LedgerMessage) (st : LHState) :
    runLedgerHandle hasVH wall mono (l1 ++ l2) st
      = runLedgerHandle hasVH wall mono l2 (runLedgerHandle hasVH wall mono l1 st) := by
  simp [runLedgerHandle, List.foldl_append]

theorem cex_s1_fields :
    (ledgerHandle false 0 0 (mkLedgerMsg 1 "A") {}).ledger_hashes = [(1, "A")] ∧
    (ledgerHandle false 0 0 (mkLedgerMsg 1 "A") {}).hash_count = 1 ∧
    (ledgerHandle false 0 0 (mkLedgerMsg 1 "A") {}).ledger_hash_lookup = [(1, "A")] := by
  obtain ⟨e1, e2, e3⟩ := ledgerHandle_insert false 0 0 (mkLedgerMsg 1 "A") {} 1 1 "A"
    rfl rfl (by decide) rfl (by decide)
  refine ⟨?_, ?_, ?_⟩
  · rw [e1]
    decide
  · rw [e2]
    decide
  · rw [e3]
    decide

theorem cex_step2_first (st : LHState)
    (h1 : st.ledger_hashes = [(1, "A")])
    (h2 : st.hash_count = 1)
    (h3 : st.ledger_hash_lookup = [(1, "A")]) :
    (ledgerHandle false 0 0 (mkLedgerMsg 2 "B") st).ledger_hashes
        = List.replicate 1 (2, "B") ++ [(1, "A")] ∧
    (ledgerHandle false 0 0 (mkLedgerMsg 2 "B") st).hash_count = 1 + 1 ∧
    (ledgerHandle false 0 0 (mkLedgerMsg 2 "B") st).ledger_hash_lookup
        = [(1, "A"), (2, "B")] := by
  obtain ⟨e1, e2, e3⟩ := ledgerHandle_insert false 0 0 (mkLedgerMsg 2 "B") st 2 1 "B"
    rfl rfl (by decide) rfl (by decide)
  refine ⟨?_, ?_, ?_⟩
  · rw [e1, h2, h1]
    decide
  · rw [e2, h2]
    decide
  · rw [e3, h3, h2, h1]
    decide

theorem cex_step2 (k : ℕ) (hk : k + 2 ≤ 1000) (st : LHState)
    (h1 : st.ledger_hashes = List.replicate k (2, "B") ++ [(1, "A")])
    (h2 : st.hash_count = k + 1)
    (h3 : st.ledger_hash_lookup = [(1, "A"), (2, "B")]) :
    (ledgerHandle false 0 0 (mkLedgerMsg 2 "B") st).ledger_hashes
        = List.replicate (k + 1) (2, "B") ++ [(1, "A")] ∧
    (ledgerHandle false 0 0 (mkLedgerMsg 2 "B") st).hash_count = k + 2 ∧
    (ledgerHandle false 0 0 (mkLedgerMsg 2 "B") st).ledger_hash_lookup
        = [(1, "A"), (2, "B")] := by
  obtain ⟨e1, e2, e3⟩ := ledgerHandle_insert false 0 0 (mkLedgerMsg 2 "B") st 2 1 "B"
    rfl rfl (by decide) rfl (by decide)
  have hfull : ¬ st.hash_count = ledgerHashBufferSize := by
    rw [h2]
    unfold ledgerHashBufferSize
    omega
  refine ⟨?_, ?_, ?_⟩
  · rw [e1, if_neg hfull, h1, List.replicate_succ, List.cons_append]
  · rw [e2, h2]
    have : k + 1 + 1 ≤ ledgerHashBufferSize := by unfold ledgerHashBufferSize; omega
    omega
  · rw [e3, h3]
    simp [dictInsert, ledgerHashBufferSize]

theorem cex_run2 : ∀ n k : ℕ, k + 1 + n ≤ 1000 → ∀ st : LHState,
    st.ledger_hashes = List.replicate k (2, "B") ++ [(1, "A")] →
    st.hash_count = k + 1 →
    st.ledger_hash_lookup = [(1, "A"), (2, "B")] →
    (runLedgerHandle false 0 0 (List.replicate n (mkLedgerMsg 2 "B")) st).ledger_hashes
        = List.replicate (k + n) (2, "B") ++ [(1, "A")] ∧
    (runLedgerHandle false 0 0 (List.replicate n (mkLedgerMsg 2 "B")) st).hash_count
        = k + n + 1 ∧
    (runLedgerHandle false 0 0 (List.replicate n (mkLedgerMsg 2 "B")) st).ledger_hash_lookup
        = [(1, "A"), (2, "B")] := by
  intro n
  induction n with
  | zero =>
    intro k _ st h1 h2 h3
    exact ⟨h1, h2, h3⟩
  | succ n ih =>
    intro k hk st h1 h2 h3
    rw [List.replicate_succ, runLedgerHandle_cons]
    obtain ⟨s1, s2, s3⟩ := cex_step2 k (by omega) st h1 h2 h3
    have hrec := ih (k + 1) (by omega) _ s1 s2 s3
    have harith : k + 1 + n = k + (n + 1) := by omega
    rw [harith] at hrec
    exact hrec

theorem cex_step3 (st : LHState)
    (h1 : st.ledger_hashes = List.replicate 999 (2, "B") ++ [(1, "A")])
    (h2 : st.hash_count = 1000)
    (h3 : st.ledger_hash_lookup = [(1, "A"), (2, "B")]) :
    lookupKeys (ledgerHandle false 0 0 (mkLedgerMsg 3 "C") st) = [1, 2, 3] ∧
    bufferIndices (ledgerHandle false 0 0 (mkLedgerMsg 3 "C") st)
      = 3 :: List.replicate 999 2 := by
  obtain ⟨e1, e2, e3⟩ := ledgerHandle_insert false 0 0 (mkLedgerMsg 3 "C") st 3 1 "C"
    rfl rfl (by decide) rfl (by decide)
  have hfull : st.hash_count = ledgerHashBufferSize := h2
  have hne : List.replicate 999 ((2 : ℕ), "B") ++ [((1 : ℕ), "A")] ≠ [] := by
    intro hcontra
    have hlen := congrArg List.length hcontra
    simp only [List.length_append, List.length_replicate, List.length_cons,
      List.length_nil] at hlen
    omega
  have hbuf : (ledgerHandle false 0 0 (mkLedgerMsg 3 "C") st).ledger_hashes
      = (3, "C") :: List.replicate 999 (2, "B") := by
    rw [e1, if_pos hfull, h1, List.dropLast_cons_of_ne_nil hne, List.dropLast_concat]
  have hdict : dictInsert 3 "C" st.ledger_hash_lookup = [(1, "A"), (2, "B"), (3, "C")] := by
    rw [h3]
    decide
  have hover : ¬ (dictInsert 3 "C" st.ledger_hash_lookup).length > ledgerHashBufferSize := by
    rw [hdict]
    decide
  have hlkp : (ledgerHandle false 0 0 (mkLedgerMsg 3 "C") st).ledger_hash_lookup
      = [(1, "A"), (2, "B"), (3, "C")] := by
    rw [e3, if_neg hover, hdict]
  constructor
  · rw [lookupKeys, hlkp]
    rfl
  · rw [bufferIndices, hbuf, List.map_cons, List.map_replicate]

/-- C10 counterexample: index 1 once, index 2 delivered 999 times (filling
the 1000-slot ring buffer with duplicates), then index 3.  The append for
index 3 evicts the only buffer copy of index 1 while the dict holds just 3
keys (≤ 1000, so the cleanup never runs): key 1 remains in the lookup map
but no longer appears in the ring buffer. -/
theorem consensus_hash_buffer_cex :
    1 ∈ lookupKeys cexLedgerFinal ∧ 1 ∉ bufferIndices cexLedgerFinal := by
  have hrun : cexLedgerFinal
      = ledgerHandle false 0 0 (mkLedgerMsg 3 "C")
          (runLedgerHandle false 0 0 (List.replicate 999 (mkLedgerMsg 2 "B"))
            (ledgerHandle false 0 0 (mkLedgerMsg 1 "A") {})) := by
    unfold cexLedgerFinal cexLedgerTrace
    rw [runLedgerHandle_cons, runLedgerHandle_append]
    rfl
  obtain ⟨a1, a2, a3⟩ := cex_s1_fields
  obtain ⟨b1, b2, b3⟩ := cex_step2_first _ a1 a2 a3
  obtain ⟨c1, c2, c3⟩ := cex_run2 998 1 (by omega) _ b1 b2 b3
  have h19 : (1 : ℕ) + 998 = 999 := rfl
  rw [h19] at c1 c2
  have h1000 : (999 : ℕ) + 1 = 1000 := rfl
  rw [h1000] at c2
  obtain ⟨d1, d2⟩ := cex_step3 _ c1 c2 c3
  have hmid : (runLedgerHandle false 0 0 (List.replicate 999 (mkLedgerMsg 2 "B"))
      (ledgerHandle false 0 0 (mkLedgerMsg 1 "A") {}))
      = runLedgerHandle false 0 0 (List.replicate 998 (mkLedgerMsg 2 "B"))
          (ledgerHandle false 0 0 (mkLedgerMsg 2 "B")
            (ledgerHandle false 0 0 (mkLedgerMsg 1 "A") {})) := by
    rw [show List.replicate 999 (mkLedgerMsg 2 "B")
        = mkLedgerMsg 2 "B" :: List.replicate 998 (mkLedgerMsg 2 "B") from rfl,
      runLedgerHandle_cons]
  rw [hrun, hmid]
  constructor
  · rw [d1]
    decide
  · rw [d2]
    intro hmem
    rcases List.mem_cons.1 hmem with hmem | hmem
    · exact absurd hmem (by decide)
    · exact absurd (List.eq_of_mem_replicate hmem) (by decide)

/-- C10 amended: after any sequence of handled `ledgerClosed` events, the
consensus-hash lookup map has at most 1000 entries and every key in it was
delivered by a handled event (so `get_consensus_hash` answers only for
delivered indices); the stronger claim that every key also appears in the
1000-entry ring buffer holds whenever the handled events carry pairwise
distinct ledger indices — a repeated index can leave a key that outlives
its buffer entry. -/
theorem consensus_hash_buffer_amended (hasVH : Bool) (wall mono : ℚ)
    (msgs : List LedgerMessage) :
    (runLedgerHandle hasVH wall mono msgs {}).ledger_hash_lookup.length
        ≤ ledgerHashBufferSize ∧
    (∀ k, k ∈ lookupKeys (runLedgerHandle hasVH wall mono msgs {}) →
      k ∈ msgLedgerIndices msgs) ∧
    (∀ k h, getConsensusHash (runLedgerHandle hasVH wall mono msgs {}) k = some h →
      k ∈ msgLedgerIndices msgs) ∧
    ((msgLedgerIndices msgs).Nodup →
      ∀ k, k ∈ lookupKeys (runLedgerHandle hasVH wall mono msgs {}) →
        k ∈ bufferIndices (runLedgerHandle hasVH wall mono msgs {})) := by
  have hinv0 : LHInv ({} : LHState) := by
    refine ⟨rfl, by simp [ledgerHashBufferSize], by simp [lookupKeys],
      by simp [ledgerHashBufferSize]⟩
  have hsync0 : LHSync ({} : LHState) := by
    constructor
    · intro k
      simp [lookupKeys, bufferIndices]
    · simp [bufferIndices]
  have hdelivered : ∀ k, k ∈ lookupKeys (runLedgerHandle hasVH wall mono msgs {}) →
      k ∈ msgLedgerIndices msgs := by
    intro k hk
    rcases LH_run_keys hasVH wall mono msgs {} k hk with hk2 | hk2
    · simp [lookupKeys] at hk2
    · exact hk2
  refine ⟨(LH_run_inv hasVH wall mono msgs {} hinv0).2.2.2, hdelivered, ?_, ?_⟩
  · intro k h hgch
    apply hdelivered
    unfold getConsensusHash at hgch
    rcases hfind : (runLedgerHandle hasVH wall mono msgs {}).ledger_hash_lookup.find?
        (fun p => p.1 = k) with _ | p
    · rw [hfind] at hgch
      cases hgch
    · have hp1 : p.1 = k := by
        have := List.find?_some hfind
        exact of_decide_eq_true this
      have hpmem := List.mem_of_find?_eq_some hfind
      rw [lookupKeys]
      exact List.mem_map.2 ⟨p, hpmem, hp1⟩
  · intro hnd k hk
    have hsync := LH_run_sync hasVH wall mono msgs {} hinv0 hsync0 hnd
      (by intro i _ hmem; simp [lookupKeys] at hmem)
    exact (hsync.1 k).1 hk

/-- C10 witness: a single well-formed event with index 5 — its index is in
the buffer and the dict stays within bounds. -/
theorem consensus_hash_buffer_amended_witness :
    (msgLedgerIndices [mkLedgerMsg 5 "H"]).Nodup ∧
    5 ∈ bufferIndices (runLedgerHandle false 0 0 [mkLedgerMsg 5 "H"] {}) ∧
    (runLedgerHandle false 0 0 [mkLedgerMsg 5 "H"] {}).ledger_hash_lookup.length
      ≤ ledgerHashBufferSize :=
  ⟨by decide,
   (consensus_hash_buffer_amended false 0 0 [mkLedgerMsg 5 "H"]).2.2.2 (by decide) 5
     (by with_unfolding_all decide),
   (consensus_hash_buffer_amended false 0 0 [mkLedgerMsg 5 "H"]).1⟩

end XrplDash
